import Mathlib

/-! Bowling scorecard system: embedding of `LAI_BOWLING_SYSTEM.cpp`.

The C++ program keeps, for every player, a `std::vector<int>` of rolls and
computes ten cumulative frame totals from it with an unchecked `operator[]`.

Modelling choices.

* `int` is a 32-bit two's complement integer.  A value is an `Int`, and every
  addition of the source is `addInt`, which reduces the sum modulo 2^32 into
  [-2^31, 2^31).
* `size_t rollIndex` is a `Nat`; it never exceeds 20.
* `v[i]` with `i` at or past `v.size()` is an unchecked read.  The program goes
  on with whatever the read yields, so the scorer takes a parameter `oob`, the
  content of the memory past the end of the vector: `oob i` is the value that
  the read at position `i` yields.  The indices read are recorded.
* `std::sort` is a library routine.  Where only its guarantee matters it is a
  parameter of the model, specified by what the language guarantees for it;
  where the order of ties matters the routine of GNU libstdc++ is embedded.
-/

namespace Bowling

/-! ## Data model -/

/-- Class `Player` (source lines 6-25): a name and the vector of rolls. -/
structure Player where
  name : String
  rolls : List Int
  deriving DecidableEq, Repr

/-- Class `BowlingGame` (source lines 27-150): the vector of players. -/
structure BowlingGame where
  players : List Player
  deriving DecidableEq, Repr

/-- The constructor `Player(playerName)`: the rolls start empty. -/
def Player.new (playerName : String) : Player :=
  { name := playerName, rolls := [] }

/-- Method `Player::roll` (lines 18-20): `rolls.push_back(pins)`. -/
def Player.roll (p : Player) (pins : Int) : Player :=
  { p with rolls := p.rolls ++ [pins] }

/-- The game object declared at the top of `main` (line 153): no players. -/
def BowlingGame.empty : BowlingGame :=
  { players := [] }

/-- Method `BowlingGame::addPlayer` (lines 32-34): `players.emplace_back(playerName)`. -/
def BowlingGame.addPlayer (g : BowlingGame) (playerName : String) : BowlingGame :=
  { players := g.players ++ [Player.new playerName] }

/-- Method `BowlingGame::roll` (lines 40-44): every player records `pins`. -/
def BowlingGame.roll (g : BowlingGame) (pins : Int) : BowlingGame :=
  { players := g.players.map (fun player => player.roll pins) }

/-! ## Machine integers and unchecked reads -/

/-- The value that a 32-bit `int` holds for the mathematical result `x`. -/
def wrapInt (x : Int) : Int :=
  (x + 2147483648) % 4294967296 - 2147483648

/-- The sum `a + b` of two `int` values, as `+` and `+=` compute it. -/
def addInt (a b : Int) : Int :=
  wrapInt (a + b)

/-- The unchecked read `player.getRolls()[i]`: the recorded roll when `i` is
inside the vector, and otherwise whatever lies in memory there, `oob i`. -/
def rollAt (oob : Nat → Int) (rolls : List Int) (i : Nat) : Int :=
  match rolls[i]? with
  | some pins => pins
  | none => oob i

/-! ## The frame scorer of `calculateAndDisplayScores` -/

/-- What one pass through the body of a frame loop did: the indices handed to
`operator[]`, in program order, the final value of `frameScore` and the advanced
`rollIndex`. -/
structure FrameStep where
  reads : List Nat
  frameScore : Int
  rollIndex : Nat
  deriving DecidableEq, Repr

/-- What a whole frame loop did: the cumulative totals it wrote, the indices it
read, and the final values of `totalScore` and `rollIndex`. -/
structure ScoreTrace where
  printed : List Int
  reads : List Nat
  totalScore : Int
  rollIndex : Nat
  deriving DecidableEq, Repr

/-- Body of the frame loop of `calculateAndDisplayScores`, lines 67-82, without
the accumulation of line 84. -/
def calculateAndDisplayScores.frame (oob : Nat → Int) (rolls : List Int)
    (rollIndex : Nat) : FrameStep :=
  let frameScore := rollAt oob rolls rollIndex
  if frameScore = 10 then
    { reads := [rollIndex, rollIndex + 1, rollIndex + 2]
      frameScore := addInt frameScore
        (addInt (rollAt oob rolls (rollIndex + 1)) (rollAt oob rolls (rollIndex + 2)))
      rollIndex := rollIndex + 1 }
  else
    let frameScore1 := addInt frameScore (rollAt oob rolls (rollIndex + 1))
    if frameScore1 = 10 then
      { reads := [rollIndex, rollIndex + 1, rollIndex + 2]
        frameScore := addInt frameScore1 (rollAt oob rolls (rollIndex + 2))
        rollIndex := rollIndex + 2 }
    else
      { reads := [rollIndex, rollIndex + 1]
        frameScore := frameScore1
        rollIndex := rollIndex + 2 }

/-- The frame loop of `calculateAndDisplayScores` (lines 66-86) with `frames`
iterations still to run; `frames = 10` at entry since `frame` runs from 1 to 10.
Each frame adds its score to `totalScore` (line 84) and writes the total
(line 85). -/
def calculateAndDisplayScores.loop (oob : Nat → Int) (rolls : List Int) :
    Nat → Int → Nat → ScoreTrace
  | 0, totalScore, rollIndex =>
    { printed := [], reads := [], totalScore := totalScore, rollIndex := rollIndex }
  | frames + 1, totalScore, rollIndex =>
    let step := calculateAndDisplayScores.frame oob rolls rollIndex
    let totalScore1 := addInt totalScore step.frameScore
    let rest := calculateAndDisplayScores.loop oob rolls frames totalScore1 step.rollIndex
    { printed := totalScore1 :: rest.printed
      reads := step.reads ++ rest.reads
      totalScore := rest.totalScore
      rollIndex := rest.rollIndex }

/-- The work of `calculateAndDisplayScores` for one player (lines 61-86):
`totalScore = 0`, `rollIndex = 0`, ten frames. -/
def calculateAndDisplayScores.player (oob : Nat → Int) (rolls : List Int) : ScoreTrace :=
  calculateAndDisplayScores.loop oob rolls 10 0 0

/-- Method `calculateAndDisplayScores` (lines 58-91): one trace per player, in
roster order. -/
def calculateAndDisplayScores (oob : Nat → Int) (g : BowlingGame) :
    List (String × ScoreTrace) :=
  g.players.map
    (fun player => (player.name, calculateAndDisplayScores.player oob player.rolls))

/-- The values of `rollIndex` at line 67 in the successive frames of the loop of
`calculateAndDisplayScores`, with `frames` iterations to run. -/
def calculateAndDisplayScores.cursors (oob : Nat → Int) (rolls : List Int) :
    Nat → Nat → List Nat
  | 0, _ => []
  | frames + 1, rollIndex =>
    rollIndex :: calculateAndDisplayScores.cursors oob rolls frames
      (calculateAndDisplayScores.frame oob rolls rollIndex).rollIndex

/-- Every index that the scorer hands to `operator[]` lies inside the vector.
The memory content chosen here is immaterial: the scorer consults it only at a
read past the end (see `readsInRange_iff`). -/
def readsInRange (rolls : List Int) : Prop :=
  ∀ i ∈ (calculateAndDisplayScores.player (fun _ => 0) rolls).reads, i < rolls.length

instance (rolls : List Int) : Decidable (readsInRange rolls) := by
  unfold readsInRange; infer_instance

/-- Every recorded roll of the ledger lies in [0,10]. -/
def pinsInRange (rolls : List Int) : Prop :=
  ∀ x ∈ rolls, 0 ≤ x ∧ x ≤ 10

instance (rolls : List Int) : Decidable (pinsInRange rolls) := by
  unfold pinsInRange; infer_instance

/-- Every recorded roll has absolute value at most 71582788.  Thirty such rolls
sum to at most 2147483640, so no sum that the scorer forms leaves the range of
a 32-bit `int`. -/
def smallPins (rolls : List Int) : Prop :=
  ∀ x ∈ rolls, -71582788 ≤ x ∧ x ≤ 71582788

instance (rolls : List Int) : Decidable (smallPins rolls) := by
  unfold smallPins; infer_instance

/-! ## The second scoring traversal, inside `displayGameSummary` -/

/-- What the total-score loop of `displayGameSummary` did: the indices it read
and the final `totalScore`. -/
structure TotalTrace where
  reads : List Nat
  total : Int
  deriving DecidableEq, Repr

/-- Body of the frame loop of `displayGameSummary`, lines 112-125. -/
def displayGameSummary.frame (oob : Nat → Int) (rolls : List Int)
    (rollIndex : Nat) : FrameStep :=
  let frameScore := rollAt oob rolls rollIndex
  if frameScore = 10 then
    { reads := [rollIndex, rollIndex + 1, rollIndex + 2]
      frameScore := addInt frameScore
        (addInt (rollAt oob rolls (rollIndex + 1)) (rollAt oob rolls (rollIndex + 2)))
      rollIndex := rollIndex + 1 }
  else
    let frameScore1 := addInt frameScore (rollAt oob rolls (rollIndex + 1))
    if frameScore1 = 10 then
      { reads := [rollIndex, rollIndex + 1, rollIndex + 2]
        frameScore := addInt frameScore1 (rollAt oob rolls (rollIndex + 2))
        rollIndex := rollIndex + 2 }
    else
      { reads := [rollIndex, rollIndex + 1]
        frameScore := frameScore1
        rollIndex := rollIndex + 2 }

/-- The frame loop of `displayGameSummary` (lines 111-128) with `frames`
iterations still to run.  Nothing is written inside this loop. -/
def displayGameSummary.loop (oob : Nat → Int) (rolls : List Int) :
    Nat → Int → Nat → TotalTrace
  | 0, totalScore, _ => { reads := [], total := totalScore }
  | frames + 1, totalScore, rollIndex =>
    let step := displayGameSummary.frame oob rolls rollIndex
    let rest := displayGameSummary.loop oob rolls frames
      (addInt totalScore step.frameScore) step.rollIndex
    { reads := step.reads ++ rest.reads, total := rest.total }

/-- Lines 108-128 for one player: `totalScore = 0`, `rollIndex = 0`, ten frames. -/
def displayGameSummary.totalScore (oob : Nat → Int) (rolls : List Int) : TotalTrace :=
  displayGameSummary.loop oob rolls 10 0 0

/-- The loop of lines 106-131 that fills `playerRanking`: one pair
`(name, totalScore)` per player, in roster order. -/
def displayGameSummary.playerRanking (oob : Nat → Int) :
    List Player → List (String × Int)
  | [] => []
  | player :: rest =>
    (player.name, (displayGameSummary.totalScore oob player.rolls).total) ::
      displayGameSummary.playerRanking oob rest

/-- The comparison handed to `std::sort` at lines 134-136:
`a.second > b.second`. -/
def displayGameSummary.comp (a b : String × Int) : Bool :=
  decide (a.2 > b.2)

/-- What the language guarantees of `std::sort(first, last, comp)`: the range is
rearranged (a permutation of its elements) so that no element is ordered by
`comp` before an element that precedes it.  Nothing is guaranteed about the
relative order of elements that `comp` does not separate. -/
def StdSort {α : Type} (sort : (α → α → Bool) → List α → List α)
    (comp : α → α → Bool) : Prop :=
  ∀ xs : List α, (sort comp xs).Perm xs ∧
    (sort comp xs).Pairwise (fun a b => comp b a = false)

/-- The ranking of `displayGameSummary` (lines 105-136) for a given `std::sort`:
`playerRanking` is filled and sorted with the comparison of lines 134-136. -/
def displayGameSummary.ranking (oob : Nat → Int)
    (sort : (String × Int → String × Int → Bool) → List (String × Int) → List (String × Int))
    (g : BowlingGame) : List (String × Int) :=
  sort displayGameSummary.comp (displayGameSummary.playerRanking oob g.players)

/-- An insertion sort that meets the guarantee of `std::sort`. -/
def insertionSortBy {α : Type} (comp : α → α → Bool) (xs : List α) : List α :=
  xs.insertionSort (fun a b => comp b a = false)

/-- A roster of four players whose final scores are 120, 150, 150 and 90 in
roster order: spares of 2 and 8 with a bonus of 2, two games of spares of 5 and
5 with a bonus of 5, and ten open frames of 4 and 5. -/
def tieRoster : BowlingGame :=
  { players :=
      [ { name := "Ann", rolls := (List.replicate 10 [2, 8]).flatten ++ [2] },
        { name := "Ben", rolls := (List.replicate 10 [5, 5]).flatten ++ [5] },
        { name := "Cat", rolls := (List.replicate 10 [5, 5]).flatten ++ [5] },
        { name := "Dan", rolls := (List.replicate 10 [4, 5]).flatten } ] }

/-! ## The `std::sort` of GNU libstdc++ (`bits/stl_algo.h`)

A range is a list; iterators are positions in it.  The heap sort that
`__introsort_loop` falls back on when its depth limit reaches 0 is left out: the
model answers `none` there. -/

namespace Libstdcxx

/-- The routine `__unguarded_linear_insert`.  `below` holds the elements under
the position of `val`, nearest first; each element that `val` is ordered before
moves up by one place and `val` is stored above the first one that it is not
ordered before.  The result is again listed from the top down. -/
def unguardedLinearInsert {α : Type} (comp : α → α → Bool) (val : α) : List α → List α
  | [] => [val]
  | next :: below =>
    if comp val next then next :: unguardedLinearInsert comp val below
    else val :: next :: below

/-- One iteration of the loop of `__insertion_sort` for the element `val` above
the sorted part `sorted`: ordered before `*first`, it moves to the front,
otherwise it is inserted by `__unguarded_linear_insert`. -/
def insertStep {α : Type} (comp : α → α → Bool) (val : α) (sorted : List α) : List α :=
  match sorted with
  | [] => [val]
  | first :: _ =>
    if comp val first then val :: sorted
    else (unguardedLinearInsert comp val sorted.reverse).reverse

/-- The loop of `__insertion_sort` with `sorted` already in place and `rest`
still to insert. -/
def insertionSortLoop {α : Type} (comp : α → α → Bool) : List α → List α → List α
  | sorted, [] => sorted
  | sorted, val :: rest => insertionSortLoop comp (insertStep comp val sorted) rest

/-- The routine `__insertion_sort` on a whole range. -/
def insertionSort {α : Type} (comp : α → α → Bool) : List α → List α
  | [] => []
  | first :: rest => insertionSortLoop comp [first] rest

/-- The routine `__unguarded_insertion_sort` on the part `rest` of a range whose
lower part is `sorted`. -/
def unguardedInsertionSort {α : Type} (comp : α → α → Bool) : List α → List α → List α
  | sorted, [] => sorted
  | sorted, val :: rest =>
    unguardedInsertionSort comp (unguardedLinearInsert comp val sorted.reverse).reverse rest

/-- The routine `__final_insertion_sort` with `_S_threshold = 16`. -/
def finalInsertionSort {α : Type} (comp : α → α → Bool) (v : List α) : List α :=
  if v.length > 16 then
    unguardedInsertionSort comp (insertionSort comp (v.take 16)) (v.drop 16)
  else insertionSort comp v

/-- The call `std::iter_swap(i, j)` on two positions of the range. -/
def iterSwap {α : Type} (v : List α) (i j : Nat) : List α :=
  match v[i]?, v[j]? with
  | some a, some b => (v.set i b).set j a
  | _, _ => v

/-- The test `comp(i, j)` on two positions of the range. -/
def compAt {α : Type} (comp : α → α → Bool) (v : List α) (i j : Nat) : Bool :=
  match v[i]?, v[j]? with
  | some a, some b => comp a b
  | _, _ => false

/-- The routine `__move_median_to_first`. -/
def moveMedianToFirst {α : Type} (comp : α → α → Bool) (v : List α)
    (result a b c : Nat) : List α :=
  if compAt comp v a b then
    if compAt comp v b c then iterSwap v result b
    else if compAt comp v a c then iterSwap v result c
    else iterSwap v result a
  else if compAt comp v a c then iterSwap v result a
  else if compAt comp v b c then iterSwap v result c
  else iterSwap v result b

/-- The loop `while (comp(first, pivot)) ++first` of `__unguarded_partition`,
run for at most `fuel` steps. -/
def scanUp {α : Type} (comp : α → α → Bool) (v : List α) (pivot : Nat) : Nat → Nat → Nat
  | 0, first => first
  | fuel + 1, first =>
    if compAt comp v first pivot then scanUp comp v pivot fuel (first + 1) else first

/-- The loop `while (comp(pivot, last)) --last` of `__unguarded_partition`, run
for at most `fuel` steps. -/
def scanDown {α : Type} (comp : α → α → Bool) (v : List α) (pivot : Nat) : Nat → Nat → Nat
  | 0, last => last
  | fuel + 1, last =>
    if compAt comp v pivot last then scanDown comp v pivot fuel (last - 1) else last

/-- The routine `__unguarded_partition`, its outer loop run for at most `fuel`
rounds: the rearranged range and the position returned. -/
def unguardedPartition {α : Type} (comp : α → α → Bool) :
    Nat → List α → Nat → Nat → Nat → List α × Nat
  | 0, v, first, _, _ => (v, first)
  | fuel + 1, v, first, last, pivot =>
    let first1 := scanUp comp v pivot v.length first
    let last1 := scanDown comp v pivot v.length (last - 1)
    if first1 < last1 then
      unguardedPartition comp fuel (iterSwap v first1 last1) (first1 + 1) last1 pivot
    else (v, first1)

/-- The routine `__unguarded_partition_pivot`. -/
def unguardedPartitionPivot {α : Type} (comp : α → α → Bool) (v : List α)
    (first last : Nat) : List α × Nat :=
  let mid := first + (last - first) / 2
  let v1 := moveMedianToFirst comp v first (first + 1) mid (last - 1)
  unguardedPartition comp v.length v1 (first + 1) last first

/-- The routine `__introsort_loop`, by recursion on its depth limit.  `none`
stands for the heap sort taken at depth limit 0, which is left out. -/
def introsortLoop {α : Type} (comp : α → α → Bool) :
    Nat → List α → Nat → Nat → Option (List α)
  | 0, v, first, last => if last - first > 16 then none else some v
  | depthLimit + 1, v, first, last =>
    if last - first > 16 then
      let cut := unguardedPartitionPivot comp v first last
      match introsortLoop comp depthLimit cut.1 cut.2 last with
      | none => none
      | some v1 => introsortLoop comp depthLimit v1 first cut.2
    else some v

/-- The function `std::__lg`: the position of the highest set bit, for
`fuel` at least the number of bits of `n`. -/
def lg : Nat → Nat → Nat
  | 0, _ => 0
  | fuel + 1, n => if n ≤ 1 then 0 else lg fuel (n / 2) + 1

/-- The routine `__sort`, which `std::sort(first, last, comp)` calls. -/
def sort {α : Type} (comp : α → α → Bool) (v : List α) : Option (List α) :=
  if v.isEmpty then some v
  else
    match introsortLoop comp (lg v.length v.length * 2) v 0 v.length with
    | none => none
    | some v1 => some (finalInsertionSort comp v1)

end Libstdcxx

/-- The ranking of `displayGameSummary` (lines 105-136) when `std::sort` is the
routine of GNU libstdc++. -/
def displayGameSummary.rankingLibstdcxx (oob : Nat → Int) (g : BowlingGame) :
    Option (List (String × Int)) :=
  Libstdcxx.sort displayGameSummary.comp (displayGameSummary.playerRanking oob g.players)

/-- A roster of seventeen players who all rolled twenty gutter balls. -/
def gutterRoster : BowlingGame :=
  { players :=
      ["P0", "P1", "P2", "P3", "P4", "P5", "P6", "P7", "P8", "P9", "P10", "P11", "P12",
        "P13", "P14", "P15", "P16"].map
        (fun playerName => { name := playerName, rolls := List.replicate 20 0 }) }

/-! ## The menu loop of `main` -/

/-- State of the Enter Scores pass: the game and the number of integers already
taken from the input. -/
structure EntryState where
  game : BowlingGame
  consumed : Nat

/-- Body of the inner loop of menu option 2 (lines 188-223) for one player in
one frame.  `cin k` is the k-th integer typed during the pass.  A rejected entry
takes the `continue` and records nothing. -/
def enterScores.entry (cin : Nat → Int) (s : EntryState) : EntryState :=
  let pins1 := cin s.consumed
  if pins1 < 0 ∨ pins1 > 10 then
    { game := s.game, consumed := s.consumed + 1 }
  else if pins1 ≠ 10 then
    let pins2 := cin (s.consumed + 1)
    if pins2 < 0 ∨ pins2 > 10 ∨ pins1 + pins2 > 10 then
      { game := s.game, consumed := s.consumed + 2 }
    else
      { game := (s.game.roll pins1).roll pins2, consumed := s.consumed + 2 }
  else
    { game := (s.game.roll pins1).roll 0, consumed := s.consumed + 1 }

/-- The inner loop of lines 187-224: one entry per player of the roster. -/
def enterScores.frame (cin : Nat → Int) (s : EntryState) : EntryState :=
  s.game.players.foldl (fun st _ => enterScores.entry cin st) s

/-- The outer loop of lines 186-225 with `frames` iterations still to run. -/
def enterScores.frames (cin : Nat → Int) : Nat → EntryState → EntryState
  | 0, s => s
  | frames + 1, s => enterScores.frames cin frames (enterScores.frame cin s)

/-- Menu option 2 (lines 181-228): nothing happens on an empty roster, otherwise
ten frames of entries are read. -/
def enterScores (cin : Nat → Int) (g : BowlingGame) : BowlingGame :=
  if g.players.isEmpty then g
  else (enterScores.frames cin 10 { game := g, consumed := 0 }).game

/-- Menu option 1 (lines 168-180): the player is added only while the roster
holds fewer than 5 players. -/
def menuAddPlayer (g : BowlingGame) (playerName : String) : BowlingGame :=
  if g.players.length < 5 then g.addPlayer playerName else g

/-- One turn of the menu: the option typed, the name typed if the option asks
for one, and the integers typed if the option asks for scores. -/
structure MenuInput where
  option : Int
  playerName : String
  pins : Nat → Int

/-- The `switch` of lines 167-240.  Options 3 and 4 call `const` display
methods, option 0 and unknown options only write a message. -/
def menuStep (g : BowlingGame) (input : MenuInput) : BowlingGame :=
  if input.option = 1 then menuAddPlayer g input.playerName
  else if input.option = 2 then enterScores input.pins g
  else g

/-- The `do ... while (option != 0)` loop of `main` (lines 157-242) run on a
finite sequence of turns: the state after the last turn, or after the first turn
with option 0. -/
def mainLoop : BowlingGame → List MenuInput → BowlingGame
  | g, [] => g
  | g, input :: rest =>
    if input.option = 0 then menuStep g input
    else mainLoop (menuStep g input) rest

/-! ## The reference algorithm of the specification -/

/-- The error kinds named by the specification. -/
inductive SpecError where
  | RosterFull
  | IncompleteGame
  | InvalidPins
  deriving DecidableEq, Repr

namespace Spec

/-- A bounds-checked read: a cursor past the recorded rolls is an incomplete
game. -/
def readRoll (rolls : List Int) (cursor : Nat) : Except SpecError Int :=
  match rolls[cursor]? with
  | some pins => Except.ok pins
  | none => Except.error SpecError.IncompleteGame

/-- Steps 1 to 3 of the algorithm of section 4.2: the frame value and the
advanced cursor. -/
def frameValue (rolls : List Int) (cursor : Nat) : Except SpecError (Int × Nat) :=
  (readRoll rolls cursor).bind fun r0 =>
    if r0 = 10 then
      (readRoll rolls (cursor + 1)).bind fun r1 =>
        (readRoll rolls (cursor + 2)).bind fun r2 =>
          Except.ok (r0 + r1 + r2, cursor + 1)
    else
      (readRoll rolls (cursor + 1)).bind fun r1 =>
        if r0 + r1 = 10 then
          (readRoll rolls (cursor + 2)).bind fun r2 =>
            Except.ok (r0 + r1 + r2, cursor + 2)
        else Except.ok (r0 + r1, cursor + 2)

/-- Step 4, repeated: the running total after each of `frames` frames. -/
def frameRow (rolls : List Int) : Nat → Nat → Int → Except SpecError (List Int)
  | 0, _, _ => Except.ok []
  | frames + 1, cursor, total =>
    (frameValue rolls cursor).bind fun (value, cursor1) =>
      (frameRow rolls frames cursor1 (total + value)).bind fun rest =>
        Except.ok ((total + value) :: rest)

/-- The Frame Scorer of section 4.2: cursor 0, running total 0, ten frames. -/
def scoreRow (rolls : List Int) : Except SpecError (List Int) :=
  frameRow rolls 10 0 0

end Spec

/-! ## Sessions and valid entries -/

/-- The acceptance test of a frame entry as the specification words it: the
first roll is in [0,10] and either it is a strike or the second roll is in
[0,10] and the two rolls sum to at most 10. -/
def Spec.validEntry (pins1 pins2 : Int) : Prop :=
  0 ≤ pins1 ∧ pins1 ≤ 10 ∧ (pins1 = 10 ∨ (0 ≤ pins2 ∧ pins2 ≤ 10 ∧ pins1 + pins2 ≤ 10))

instance (pins1 pins2 : Int) : Decidable (Spec.validEntry pins1 pins2) := by
  unfold Spec.validEntry; infer_instance

/-! ## Lemmas on reads and frames -/

theorem rollAt_congr (oob1 oob2 : Nat → Int) (rolls : List Int) (i : Nat)
    (h : i < rolls.length) : rollAt oob2 rolls i = rollAt oob1 rolls i := by
  simp [rollAt, List.getElem?_eq_getElem h]

theorem rollAt_mem (oob : Nat → Int) (rolls : List Int) (i : Nat)
    (h : i < rolls.length) : rollAt oob rolls i ∈ rolls := by
  simp [rollAt, List.getElem?_eq_getElem h]

theorem rollAt_eq_getD (oob : Nat → Int) (rolls : List Int) (i : Nat)
    (h : i < rolls.length) : rollAt oob rolls i = rolls.getD i 0 := by
  simp [rollAt, List.getElem?_eq_getElem h]

theorem frame_strike (oob : Nat → Int) (rolls : List Int) (c : Nat)
    (h : rollAt oob rolls c = 10) :
    calculateAndDisplayScores.frame oob rolls c =
      { reads := [c, c + 1, c + 2]
        frameScore := addInt (rollAt oob rolls c)
          (addInt (rollAt oob rolls (c + 1)) (rollAt oob rolls (c + 2)))
        rollIndex := c + 1 } := by
  simp [calculateAndDisplayScores.frame, h]

theorem frame_spare (oob : Nat → Int) (rolls : List Int) (c : Nat)
    (h : rollAt oob rolls c ≠ 10)
    (h2 : addInt (rollAt oob rolls c) (rollAt oob rolls (c + 1)) = 10) :
    calculateAndDisplayScores.frame oob rolls c =
      { reads := [c, c + 1, c + 2]
        frameScore := addInt (addInt (rollAt oob rolls c) (rollAt oob rolls (c + 1)))
          (rollAt oob rolls (c + 2))
        rollIndex := c + 2 } := by
  simp [calculateAndDisplayScores.frame, h, h2]

theorem frame_open (oob : Nat → Int) (rolls : List Int) (c : Nat)
    (h : rollAt oob rolls c ≠ 10)
    (h2 : addInt (rollAt oob rolls c) (rollAt oob rolls (c + 1)) ≠ 10) :
    calculateAndDisplayScores.frame oob rolls c =
      { reads := [c, c + 1]
        frameScore := addInt (rollAt oob rolls c) (rollAt oob rolls (c + 1))
        rollIndex := c + 2 } := by
  simp [calculateAndDisplayScores.frame, h, h2]

theorem frame_cases (oob : Nat → Int) (rolls : List Int) (c : Nat) :
    ((calculateAndDisplayScores.frame oob rolls c).reads = [c, c + 1, c + 2] ∨
        (calculateAndDisplayScores.frame oob rolls c).reads = [c, c + 1]) ∧
      c + 1 ≤ (calculateAndDisplayScores.frame oob rolls c).rollIndex ∧
      (calculateAndDisplayScores.frame oob rolls c).rollIndex ≤ c + 2 := by
  by_cases h : rollAt oob rolls c = 10
  · rw [frame_strike oob rolls c h]; simp
  · by_cases h2 : addInt (rollAt oob rolls c) (rollAt oob rolls (c + 1)) = 10
    · rw [frame_spare oob rolls c h h2]; simp
    · rw [frame_open oob rolls c h h2]; simp

theorem frame_reads_lt (oob : Nat → Int) (rolls : List Int) (c : Nat)
    (h : ∀ i ∈ (calculateAndDisplayScores.frame oob rolls c).reads, i < rolls.length) :
    c < rolls.length ∧ c + 1 < rolls.length := by
  rcases (frame_cases oob rolls c).1 with hr | hr <;> rw [hr] at h <;>
    exact ⟨h c (by simp), h (c + 1) (by simp)⟩

theorem frame_congr (oob1 oob2 : Nat → Int) (rolls : List Int) (c : Nat)
    (h : ∀ i ∈ (calculateAndDisplayScores.frame oob1 rolls c).reads, i < rolls.length) :
    calculateAndDisplayScores.frame oob2 rolls c =
      calculateAndDisplayScores.frame oob1 rolls c := by
  obtain ⟨hc, hc1⟩ := frame_reads_lt oob1 rolls c h
  have e0 := rollAt_congr oob1 oob2 rolls c hc
  have e1 := rollAt_congr oob1 oob2 rolls (c + 1) hc1
  by_cases h10 : rollAt oob1 rolls c = 10
  · rw [frame_strike oob1 rolls c h10] at h ⊢
    have hc2 : c + 2 < rolls.length := h (c + 2) (by simp)
    rw [frame_strike oob2 rolls c (e0.trans h10), e0, e1,
      rollAt_congr oob1 oob2 rolls (c + 2) hc2]
  · by_cases h2 : addInt (rollAt oob1 rolls c) (rollAt oob1 rolls (c + 1)) = 10
    · rw [frame_spare oob1 rolls c h10 h2] at h ⊢
      have hc2 : c + 2 < rolls.length := h (c + 2) (by simp)
      rw [frame_spare oob2 rolls c (by rw [e0]; exact h10) (by rw [e0, e1]; exact h2), e0, e1,
        rollAt_congr oob1 oob2 rolls (c + 2) hc2]
    · rw [frame_open oob1 rolls c h10 h2,
        frame_open oob2 rolls c (by rw [e0]; exact h10) (by rw [e0, e1]; exact h2), e0, e1]

theorem loop_succ (oob : Nat → Int) (rolls : List Int) (n : Nat) (t : Int) (c : Nat) :
    calculateAndDisplayScores.loop oob rolls (n + 1) t c =
      { printed := addInt t (calculateAndDisplayScores.frame oob rolls c).frameScore ::
          (calculateAndDisplayScores.loop oob rolls n
            (addInt t (calculateAndDisplayScores.frame oob rolls c).frameScore)
            (calculateAndDisplayScores.frame oob rolls c).rollIndex).printed
        reads := (calculateAndDisplayScores.frame oob rolls c).reads ++
          (calculateAndDisplayScores.loop oob rolls n
            (addInt t (calculateAndDisplayScores.frame oob rolls c).frameScore)
            (calculateAndDisplayScores.frame oob rolls c).rollIndex).reads
        totalScore := (calculateAndDisplayScores.loop oob rolls n
            (addInt t (calculateAndDisplayScores.frame oob rolls c).frameScore)
            (calculateAndDisplayScores.frame oob rolls c).rollIndex).totalScore
        rollIndex := (calculateAndDisplayScores.loop oob rolls n
            (addInt t (calculateAndDisplayScores.frame oob rolls c).frameScore)
            (calculateAndDisplayScores.frame oob rolls c).rollIndex).rollIndex } := by
  simp only [calculateAndDisplayScores.loop]

theorem loop_reads_split (oob : Nat → Int) (rolls : List Int) (n : Nat) (t : Int) (c : Nat)
    (h : ∀ i ∈ (calculateAndDisplayScores.loop oob rolls (n + 1) t c).reads,
      i < rolls.length) :
    (∀ i ∈ (calculateAndDisplayScores.frame oob rolls c).reads, i < rolls.length) ∧
      ∀ i ∈ (calculateAndDisplayScores.loop oob rolls n
          (addInt t (calculateAndDisplayScores.frame oob rolls c).frameScore)
          (calculateAndDisplayScores.frame oob rolls c).rollIndex).reads,
        i < rolls.length := by
  rw [loop_succ] at h
  exact ⟨fun i hi => h i (List.mem_append_left _ hi),
    fun i hi => h i (List.mem_append_right _ hi)⟩

theorem loop_congr (oob1 oob2 : Nat → Int) (rolls : List Int) (n : Nat) (t : Int) (c : Nat)
    (h : ∀ i ∈ (calculateAndDisplayScores.loop oob1 rolls n t c).reads, i < rolls.length) :
    calculateAndDisplayScores.loop oob2 rolls n t c =
      calculateAndDisplayScores.loop oob1 rolls n t c := by
  induction n generalizing t c with
  | zero => simp [calculateAndDisplayScores.loop]
  | succ n ih =>
    obtain ⟨hf, hr⟩ := loop_reads_split oob1 rolls n t c h
    rw [loop_succ oob1, loop_succ oob2, frame_congr oob1 oob2 rolls c hf, ih _ _ hr]

theorem readsInRange_iff (oob : Nat → Int) (rolls : List Int) :
    readsInRange rolls ↔
      ∀ i ∈ (calculateAndDisplayScores.player oob rolls).reads, i < rolls.length := by
  unfold readsInRange calculateAndDisplayScores.player
  constructor
  · intro h
    rw [loop_congr (fun _ => 0) oob rolls 10 0 0 h]
    exact h
  · intro h
    rw [loop_congr oob (fun _ => 0) rolls 10 0 0 h]
    exact h

theorem player_eq_of_readsInRange (oob : Nat → Int) (rolls : List Int)
    (h : readsInRange rolls) :
    calculateAndDisplayScores.player oob rolls =
      calculateAndDisplayScores.player (fun _ => 0) rolls :=
  loop_congr (fun _ => 0) oob rolls 10 0 0 h

theorem loop_printed_length (oob : Nat → Int) (rolls : List Int) (n : Nat) (t : Int)
    (c : Nat) : (calculateAndDisplayScores.loop oob rolls n t c).printed.length = n := by
  induction n generalizing t c with
  | zero => simp [calculateAndDisplayScores.loop]
  | succ n ih => rw [loop_succ]; simp [ih]

theorem loop_total_eq_last_printed (oob : Nat → Int) (rolls : List Int) (n : Nat)
    (t : Int) (c : Nat) :
    (calculateAndDisplayScores.loop oob rolls (n + 1) t c).printed[n]? =
      some (calculateAndDisplayScores.loop oob rolls (n + 1) t c).totalScore := by
  induction n generalizing t c with
  | zero => rw [loop_succ]; simp [calculateAndDisplayScores.loop]
  | succ n ih =>
    rw [loop_succ]
    simpa using ih _ _

theorem summary_loop_eq (oob : Nat → Int) (rolls : List Int) (n : Nat) (t : Int) (c : Nat) :
    (displayGameSummary.loop oob rolls n t c).total =
        (calculateAndDisplayScores.loop oob rolls n t c).totalScore ∧
      (displayGameSummary.loop oob rolls n t c).reads =
        (calculateAndDisplayScores.loop oob rolls n t c).reads := by
  induction n generalizing t c with
  | zero => simp [displayGameSummary.loop, calculateAndDisplayScores.loop]
  | succ n ih =>
    have hframe : displayGameSummary.frame oob rolls c =
        calculateAndDisplayScores.frame oob rolls c := rfl
    rw [loop_succ]
    simp only [displayGameSummary.loop, hframe]
    exact ⟨(ih _ _).1, by rw [(ih _ _).2]⟩

theorem wrapInt_of_fits (x : Int) (h : -2147483648 ≤ x ∧ x < 2147483648) :
    wrapInt x = x := by
  unfold wrapInt; omega

/-! ## The scorer and the reference algorithm -/

theorem readRoll_of_lt (oob : Nat → Int) (rolls : List Int) (i : Nat)
    (h : i < rolls.length) :
    Spec.readRoll rolls i = Except.ok (rollAt oob rolls i) := by
  simp [Spec.readRoll, rollAt, List.getElem?_eq_getElem h]

theorem frame_exact (oob : Nat → Int) (rolls : List Int) (hs : smallPins rolls) (c : Nat)
    (h : ∀ i ∈ (calculateAndDisplayScores.frame oob rolls c).reads, i < rolls.length) :
    Spec.frameValue rolls c =
        Except.ok ((calculateAndDisplayScores.frame oob rolls c).frameScore,
          (calculateAndDisplayScores.frame oob rolls c).rollIndex) ∧
      -214748364 ≤ (calculateAndDisplayScores.frame oob rolls c).frameScore ∧
      (calculateAndDisplayScores.frame oob rolls c).frameScore ≤ 214748364 := by
  obtain ⟨hc, hc1⟩ := frame_reads_lt oob rolls c h
  have b0 := hs _ (rollAt_mem oob rolls c hc)
  have b1 := hs _ (rollAt_mem oob rolls (c + 1) hc1)
  have e01 : addInt (rollAt oob rolls c) (rollAt oob rolls (c + 1)) =
      rollAt oob rolls c + rollAt oob rolls (c + 1) :=
    wrapInt_of_fits _ (by omega)
  unfold Spec.frameValue
  rw [readRoll_of_lt oob rolls c hc, readRoll_of_lt oob rolls (c + 1) hc1]
  by_cases h10 : rollAt oob rolls c = 10
  · rw [frame_strike oob rolls c h10] at h ⊢
    have hc2 : c + 2 < rolls.length := h (c + 2) (by simp)
    have b2 := hs _ (rollAt_mem oob rolls (c + 2) hc2)
    have e12 : addInt (rollAt oob rolls (c + 1)) (rollAt oob rolls (c + 2)) =
        rollAt oob rolls (c + 1) + rollAt oob rolls (c + 2) :=
      wrapInt_of_fits _ (by omega)
    have e012 : addInt (rollAt oob rolls c)
        (rollAt oob rolls (c + 1) + rollAt oob rolls (c + 2)) =
        rollAt oob rolls c + (rollAt oob rolls (c + 1) + rollAt oob rolls (c + 2)) :=
      wrapInt_of_fits _ (by omega)
    rw [readRoll_of_lt oob rolls (c + 2) hc2, e12, e012]
    simp only [Except.bind, h10, if_true]
    refine ⟨?_, by omega, by omega⟩
    rw [add_assoc]
  · by_cases h2 : addInt (rollAt oob rolls c) (rollAt oob rolls (c + 1)) = 10
    · rw [frame_spare oob rolls c h10 h2] at h ⊢
      have hc2 : c + 2 < rolls.length := h (c + 2) (by simp)
      have b2 := hs _ (rollAt_mem oob rolls (c + 2) hc2)
      rw [e01] at h2 ⊢
      have e012 : addInt (rollAt oob rolls c + rollAt oob rolls (c + 1))
          (rollAt oob rolls (c + 2)) =
          rollAt oob rolls c + rollAt oob rolls (c + 1) + rollAt oob rolls (c + 2) :=
        wrapInt_of_fits _ (by omega)
      rw [readRoll_of_lt oob rolls (c + 2) hc2, e012]
      simp only [Except.bind, h10, h2, if_true, if_false]
      exact ⟨trivial, by omega, by omega⟩
    · rw [frame_open oob rolls c h10 h2]
      rw [e01] at h2 ⊢
      simp only [Except.bind, h10, h2, if_false]
      exact ⟨trivial, by omega, by omega⟩

theorem loop_exact (oob : Nat → Int) (rolls : List Int) (hs : smallPins rolls) (n : Nat)
    (t : Int) (c : Nat)
    (h : ∀ i ∈ (calculateAndDisplayScores.loop oob rolls n t c).reads, i < rolls.length)
    (ht : -2147483640 + 214748364 * (n : Int) ≤ t ∧ t ≤ 2147483640 - 214748364 * (n : Int)) :
    Spec.frameRow rolls n c t =
      Except.ok (calculateAndDisplayScores.loop oob rolls n t c).printed := by
  induction n generalizing t c with
  | zero => simp [calculateAndDisplayScores.loop, Spec.frameRow]
  | succ n ih =>
    obtain ⟨hf, hr⟩ := loop_reads_split oob rolls n t c h
    obtain ⟨hv, hlo, hhi⟩ := frame_exact oob rolls hs c hf
    have eadd : addInt t (calculateAndDisplayScores.frame oob rolls c).frameScore =
        t + (calculateAndDisplayScores.frame oob rolls c).frameScore :=
      wrapInt_of_fits _ (by push_cast at ht; omega)
    rw [loop_succ]
    rw [eadd] at hr ⊢
    unfold Spec.frameRow
    rw [hv]
    simp only [Except.bind]
    rw [ih _ _ hr (by push_cast at ht; omega)]

/-- C1 as stated fails: on the ledger 2147483647, 1 followed by eighteen 0 every
read is in range, the reference algorithm gives 2147483648 for every frame, and
the source, whose `int` sum of the first two rolls wraps, writes -2147483648. -/
theorem C1_wrapped_row_differs :
    readsInRange [2147483647, 1, 0, 0, 0, 0, 0, 0, 0, 0, 0, 0, 0, 0, 0, 0, 0, 0, 0, 0] ∧
      Spec.scoreRow [2147483647, 1, 0, 0, 0, 0, 0, 0, 0, 0, 0, 0, 0, 0, 0, 0, 0, 0, 0, 0] =
        Except.ok [2147483648, 2147483648, 2147483648, 2147483648, 2147483648, 2147483648,
          2147483648, 2147483648, 2147483648, 2147483648] ∧
      ∀ oob : Nat → Int,
        (calculateAndDisplayScores.player oob
            [2147483647, 1, 0, 0, 0, 0, 0, 0, 0, 0, 0, 0, 0, 0, 0, 0, 0, 0, 0, 0]).printed =
          [-2147483648, -2147483648, -2147483648, -2147483648, -2147483648, -2147483648,
            -2147483648, -2147483648, -2147483648, -2147483648] := by
  refine ⟨by decide, rfl, fun oob => ?_⟩
  rw [player_eq_of_readsInRange oob _ (by decide)]
  decide

/-- C1, amended: on every roll sequence whose rolls have absolute value at most
71582788, so that no sum of the scorer leaves the range of `int`, and on which
every index read by the scorer is inside the sequence, the row written by
`calculateAndDisplayScores` has exactly 10 entries and is the row of the
reference algorithm of the specification, whatever lies in memory past the end
of the ledger. -/
theorem C1_score_row_is_reference_row (oob : Nat → Int) (rolls : List Int)
    (hs : smallPins rolls) (h : readsInRange rolls) :
    (calculateAndDisplayScores.player oob rolls).printed.length = 10 ∧
      Spec.scoreRow rolls =
        Except.ok (calculateAndDisplayScores.player oob rolls).printed :=
  ⟨loop_printed_length oob rolls 10 0 0,
    loop_exact oob rolls hs 10 0 0 ((readsInRange_iff oob rolls).mp h) (by norm_num)⟩

/-- Witness of the amended C1 on a game of nine open frames closed by a spare
and its bonus. -/
theorem C1_score_row_is_reference_row_witness :
    smallPins [3, 4, 3, 4, 3, 4, 3, 4, 3, 4, 3, 4, 3, 4, 3, 4, 3, 4, 6, 4, 7] ∧
      readsInRange [3, 4, 3, 4, 3, 4, 3, 4, 3, 4, 3, 4, 3, 4, 3, 4, 3, 4, 6, 4, 7] ∧
      ((calculateAndDisplayScores.player (fun _ => 0)
          [3, 4, 3, 4, 3, 4, 3, 4, 3, 4, 3, 4, 3, 4, 3, 4, 3, 4, 6, 4, 7]).printed.length = 10 ∧
        Spec.scoreRow [3, 4, 3, 4, 3, 4, 3, 4, 3, 4, 3, 4, 3, 4, 3, 4, 3, 4, 6, 4, 7] =
          Except.ok (calculateAndDisplayScores.player (fun _ => 0)
            [3, 4, 3, 4, 3, 4, 3, 4, 3, 4, 3, 4, 3, 4, 3, 4, 3, 4, 6, 4, 7]).printed) :=
  ⟨by decide, by decide,
    C1_score_row_is_reference_row (fun _ => 0) _ (by decide) (by decide)⟩

/-- C2 as stated fails: the ledger [10,7,3,9,0,10,0,8,8,2,0,6,10,10,10,8,1] is
scored with every read in range and the row written is not
[20,30,39,48,66,84,92,110,130,148]; its second entry is already 39. -/
theorem C2_stated_row_is_not_computed :
    readsInRange [10, 7, 3, 9, 0, 10, 0, 8, 8, 2, 0, 6, 10, 10, 10, 8, 1] ∧
      ∀ oob : Nat → Int,
        (calculateAndDisplayScores.player oob
            [10, 7, 3, 9, 0, 10, 0, 8, 8, 2, 0, 6, 10, 10, 10, 8, 1]).printed ≠
          [20, 30, 39, 48, 66, 84, 92, 110, 130, 148] ∧
        (calculateAndDisplayScores.player oob
            [10, 7, 3, 9, 0, 10, 0, 8, 8, 2, 0, 6, 10, 10, 10, 8, 1]).printed[1]? = some 39 := by
  refine ⟨by decide, fun oob => ?_⟩
  rw [player_eq_of_readsInRange oob _ (by decide)]
  decide

/-- C2, amended: for the ledger [10,7,3,9,0,10,0,8,8,2,0,6,10,10,10,8,1] the ten
cumulative frame scores computed by the scorer are
[20,39,48,66,74,84,90,120,148,167]. -/
theorem C2_example_row (oob : Nat → Int) :
    (calculateAndDisplayScores.player oob
        [10, 7, 3, 9, 0, 10, 0, 8, 8, 2, 0, 6, 10, 10, 10, 8, 1]).printed =
      [20, 39, 48, 66, 74, 84, 90, 120, 148, 167] ∧
    (calculateAndDisplayScores.player oob
        [10, 7, 3, 9, 0, 10, 0, 8, 8, 2, 0, 6, 10, 10, 10, 8, 1]).totalScore = 167 ∧
    (calculateAndDisplayScores.player oob
        [10, 7, 3, 9, 0, 10, 0, 8, 8, 2, 0, 6, 10, 10, 10, 8, 1]).rollIndex = 15 := by
  rw [player_eq_of_readsInRange oob _ (by decide)]
  decide

/-- C3: for a perfect game, 12 consecutive rolls of 10, every read is in range
and the tenth cumulative frame score is 300. -/
theorem C3_perfect_game_scores_300 (oob : Nat → Int) :
    readsInRange (List.replicate 12 10) ∧
      (calculateAndDisplayScores.player oob (List.replicate 12 10)).printed[9]? = some 300 ∧
      (calculateAndDisplayScores.player oob (List.replicate 12 10)).printed =
        [30, 60, 90, 120, 150, 180, 210, 240, 270, 300] := by
  rw [player_eq_of_readsInRange oob _ (by decide)]
  decide

/-- C4: for the all-spares game, 5,5 ten times and one bonus roll of 5, every
read is in range and the tenth cumulative frame score is 150. -/
theorem C4_all_spares_scores_150 (oob : Nat → Int) :
    ((List.replicate 10 [(5 : Int), 5]).flatten ++ [5]).length = 21 ∧
      readsInRange ((List.replicate 10 [(5 : Int), 5]).flatten ++ [5]) ∧
      (calculateAndDisplayScores.player oob
        ((List.replicate 10 [(5 : Int), 5]).flatten ++ [5])).printed[9]? = some 150 ∧
      (calculateAndDisplayScores.player oob
        ((List.replicate 10 [(5 : Int), 5]).flatten ++ [5])).printed =
        [15, 30, 45, 60, 75, 90, 105, 120, 135, 150] := by
  rw [player_eq_of_readsInRange oob _ (by decide)]
  decide

/-- C5: for the all-gutter game, 20 rolls of 0, every read is in range and the
tenth cumulative frame score is 0. -/
theorem C5_all_gutter_scores_0 (oob : Nat → Int) :
    readsInRange (List.replicate 20 0) ∧
      (calculateAndDisplayScores.player oob (List.replicate 20 0)).printed[9]? = some 0 ∧
      (calculateAndDisplayScores.player oob (List.replicate 20 0)).printed =
        [0, 0, 0, 0, 0, 0, 0, 0, 0, 0] := by
  rw [player_eq_of_readsInRange oob _ (by decide)]
  decide

/-! ## The menu loop -/

theorem roll_players_length (g : BowlingGame) (pins : Int) :
    (g.roll pins).players.length = g.players.length := by
  simp [BowlingGame.roll]

theorem entry_players_length (cin : Nat → Int) (s : EntryState) :
    (enterScores.entry cin s).game.players.length = s.game.players.length := by
  unfold enterScores.entry
  simp only
  split_ifs <;> simp [roll_players_length]

theorem foldl_entry_players_length (cin : Nat → Int) (ps : List Player) (s : EntryState) :
    (ps.foldl (fun st _ => enterScores.entry cin st) s).game.players.length =
      s.game.players.length := by
  induction ps generalizing s with
  | nil => rfl
  | cons p ps ih => rw [List.foldl_cons, ih, entry_players_length]

theorem frames_players_length (cin : Nat → Int) (n : Nat) (s : EntryState) :
    (enterScores.frames cin n s).game.players.length = s.game.players.length := by
  induction n generalizing s with
  | zero => rfl
  | succ n ih =>
    unfold enterScores.frames
    rw [ih]
    exact foldl_entry_players_length cin s.game.players s

theorem enterScores_players_length (cin : Nat → Int) (g : BowlingGame) :
    (enterScores cin g).players.length = g.players.length := by
  unfold enterScores
  split_ifs
  · rfl
  · exact frames_players_length cin 10 _

theorem menuAddPlayer_le (g : BowlingGame) (playerName : String)
    (h : g.players.length ≤ 5) : (menuAddPlayer g playerName).players.length ≤ 5 := by
  unfold menuAddPlayer
  split_ifs with h5
  · simp [BowlingGame.addPlayer]; omega
  · exact h

theorem menuStep_le (g : BowlingGame) (input : MenuInput)
    (h : g.players.length ≤ 5) : (menuStep g input).players.length ≤ 5 := by
  unfold menuStep
  split_ifs
  · exact menuAddPlayer_le g _ h
  · rw [enterScores_players_length]; exact h
  · exact h

theorem mainLoop_le (inputs : List MenuInput) (g : BowlingGame)
    (h : g.players.length ≤ 5) : (mainLoop g inputs).players.length ≤ 5 := by
  induction inputs generalizing g with
  | nil => exact h
  | cons input rest ih =>
    unfold mainLoop
    split_ifs
    · exact menuStep_le g input h
    · exact ih _ (menuStep_le g input h)

/-- C7 as stated fails: `addPlayer` on a roster of 5 players does not fail, it
appends the sixth player. -/
theorem C7_sixth_player_is_added :
    (((((BowlingGame.empty.addPlayer "A").addPlayer "B").addPlayer "C").addPlayer
        "D").addPlayer "E").players.length = 5 ∧
      ((((((BowlingGame.empty.addPlayer "A").addPlayer "B").addPlayer "C").addPlayer
        "D").addPlayer "E").addPlayer "F").players.length = 6 := by
  simp [BowlingGame.addPlayer, BowlingGame.empty]

/-- C7, amended: on a roster of 5 players `BowlingGame::addPlayer` itself never
fails and appends the new player with an empty ledger, so the roster grows to 6;
the limit is kept by menu option 1 of `main`, which on such a roster does not
call `addPlayer` and leaves the game unchanged, so the roster size remains 5. -/
theorem C7_limit_is_kept_by_the_menu (g : BowlingGame) (playerName : String)
    (h : g.players.length = 5) :
    (g.addPlayer playerName).players = g.players ++ [{ name := playerName, rolls := [] }] ∧
      (g.addPlayer playerName).players.length = 6 ∧
      menuAddPlayer g playerName = g ∧
      (menuAddPlayer g playerName).players.length = 5 := by
  refine ⟨rfl, ?_, ?_, ?_⟩
  · simp [BowlingGame.addPlayer, h]
  · simp [menuAddPlayer, h]
  · simp [menuAddPlayer, h]

/-- Witness of the amended C7 on a roster of five players with empty ledgers. -/
theorem C7_limit_is_kept_by_the_menu_witness :
    (BowlingGame.mk (List.replicate 5 (Player.new "P"))).players.length = 5 ∧
      ((BowlingGame.addPlayer (BowlingGame.mk (List.replicate 5 (Player.new "P"))) "Q").players =
          (BowlingGame.mk (List.replicate 5 (Player.new "P"))).players ++
            [{ name := "Q", rolls := [] }] ∧
        (BowlingGame.addPlayer (BowlingGame.mk (List.replicate 5 (Player.new "P")))
          "Q").players.length = 6 ∧
        menuAddPlayer (BowlingGame.mk (List.replicate 5 (Player.new "P"))) "Q" =
          BowlingGame.mk (List.replicate 5 (Player.new "P")) ∧
        (menuAddPlayer (BowlingGame.mk (List.replicate 5 (Player.new "P")))
          "Q").players.length = 5) :=
  ⟨by simp, C7_limit_is_kept_by_the_menu _ "Q" (by simp)⟩

/-- C8: in every state that the menu loop reaches from the empty game, whatever
the options typed, the roster holds at most 5 players; menu option 1 appends a
player exactly when the roster size is below 5 and otherwise leaves the game
unchanged. -/
theorem C8_roster_never_exceeds_five (inputs : List MenuInput) :
    (mainLoop BowlingGame.empty inputs).players.length ≤ 5 ∧
      ∀ (g : BowlingGame) (playerName : String) (pins : Nat → Int),
        menuStep g { option := 1, playerName := playerName, pins := pins } =
          if g.players.length < 5 then
            { players := g.players ++ [{ name := playerName, rolls := [] }] }
          else g := by
  refine ⟨mainLoop_le inputs BowlingGame.empty (by simp [BowlingGame.empty]), ?_⟩
  intro g playerName pins
  simp [menuStep, menuAddPlayer, BowlingGame.addPlayer, Player.new]

/-- C12: for every game and every integer `pins`, `BowlingGame::roll(pins)`
replaces each ledger by that ledger with `pins` appended at its end and leaves
the number of players, their order and their names unchanged. -/
theorem C12_roll_appends_to_every_ledger (g : BowlingGame) (pins : Int) :
    (g.roll pins).players.map Player.rolls =
        g.players.map (fun p => p.rolls ++ [pins]) ∧
      (g.roll pins).players.map Player.name = g.players.map Player.name ∧
      (g.roll pins).players.length = g.players.length := by
  refine ⟨?_, ?_, ?_⟩
  · simp [BowlingGame.roll, Player.roll, Function.comp_def]
  · simp [BowlingGame.roll, Player.roll, Function.comp_def]
  · simp [BowlingGame.roll]


/-! ## The Enter Scores pass -/

theorem entry_game_eq (cin : Nat → Int) (s : EntryState) :
    (enterScores.entry cin s).game =
      if Spec.validEntry (cin s.consumed) (cin (s.consumed + 1)) then
        (s.game.roll (cin s.consumed)).roll
          (if cin s.consumed = 10 then 0 else cin (s.consumed + 1))
      else s.game := by
  unfold enterScores.entry
  simp only []
  by_cases h1 : cin s.consumed < 0 ∨ cin s.consumed > 10
  · have hv : ¬ Spec.validEntry (cin s.consumed) (cin (s.consumed + 1)) := by
      unfold Spec.validEntry; omega
    simp [h1, hv]
  · by_cases h2 : cin s.consumed = 10
    · have hv : Spec.validEntry (cin s.consumed) (cin (s.consumed + 1)) := by
        unfold Spec.validEntry; omega
      simp [h2, hv]
      simp [h2] at hv
      simp [hv]
    · by_cases h3 : cin (s.consumed + 1) < 0 ∨ cin (s.consumed + 1) > 10 ∨
          cin s.consumed + cin (s.consumed + 1) > 10
      · have hv : ¬ Spec.validEntry (cin s.consumed) (cin (s.consumed + 1)) := by
          unfold Spec.validEntry; omega
        simp [h1, h2, h3, hv]
      · have hv : Spec.validEntry (cin s.consumed) (cin (s.consumed + 1)) := by
          unfold Spec.validEntry; omega
        simp [h1, h2, h3, hv]

theorem roll_pinsInRange (g : BowlingGame) (pins : Int) (hp : 0 ≤ pins ∧ pins ≤ 10)
    (h : ∀ p ∈ g.players, pinsInRange p.rolls) :
    ∀ p ∈ (g.roll pins).players, pinsInRange p.rolls := by
  intro p hp1
  simp only [BowlingGame.roll, List.mem_map] at hp1
  obtain ⟨q, hq, rfl⟩ := hp1
  intro x hx
  simp only [Player.roll, List.mem_append, List.mem_singleton] at hx
  rcases hx with hx | rfl
  · exact h q hq x hx
  · exact hp

theorem entry_pinsInRange (cin : Nat → Int) (s : EntryState)
    (h : ∀ p ∈ s.game.players, pinsInRange p.rolls) :
    ∀ p ∈ (enterScores.entry cin s).game.players, pinsInRange p.rolls := by
  rw [entry_game_eq]
  split_ifs with hv h10
  · exact roll_pinsInRange _ 0 (by omega) (roll_pinsInRange _ _ (by omega) h)
  · unfold Spec.validEntry at hv
    exact roll_pinsInRange _ _ (by omega) (roll_pinsInRange _ _ (by omega) h)
  · exact h

theorem foldl_entry_pinsInRange (cin : Nat → Int) (ps : List Player) (s : EntryState)
    (h : ∀ p ∈ s.game.players, pinsInRange p.rolls) :
    ∀ p ∈ (ps.foldl (fun st _ => enterScores.entry cin st) s).game.players,
      pinsInRange p.rolls := by
  induction ps generalizing s with
  | nil => exact h
  | cons q ps ih =>
    rw [List.foldl_cons]
    exact ih _ (entry_pinsInRange cin s h)

theorem frames_pinsInRange (cin : Nat → Int) (n : Nat) (s : EntryState)
    (h : ∀ p ∈ s.game.players, pinsInRange p.rolls) :
    ∀ p ∈ (enterScores.frames cin n s).game.players, pinsInRange p.rolls := by
  induction n generalizing s with
  | zero => exact h
  | succ n ih =>
    unfold enterScores.frames
    exact ih _ (foldl_entry_pinsInRange cin s.game.players s h)

theorem menuStep_pinsInRange (g : BowlingGame) (input : MenuInput)
    (h : ∀ p ∈ g.players, pinsInRange p.rolls) :
    ∀ p ∈ (menuStep g input).players, pinsInRange p.rolls := by
  unfold menuStep
  split_ifs
  · unfold menuAddPlayer
    split_ifs
    · intro p hp
      simp only [BowlingGame.addPlayer, List.mem_append, List.mem_singleton] at hp
      rcases hp with hp | rfl
      · exact h p hp
      · intro x hx
        simp [Player.new] at hx
    · exact h
  · unfold enterScores
    split_ifs
    · exact h
    · exact frames_pinsInRange _ 10 _ h
  · exact h

theorem mainLoop_pinsInRange (inputs : List MenuInput) (g : BowlingGame)
    (h : ∀ p ∈ g.players, pinsInRange p.rolls) :
    ∀ p ∈ (mainLoop g inputs).players, pinsInRange p.rolls := by
  induction inputs generalizing g with
  | nil => exact h
  | cons input rest ih =>
    unfold mainLoop
    split_ifs
    · exact menuStep_pinsInRange g input h
    · exact ih _ (menuStep_pinsInRange g input h)

/-- C13: in the Enter Scores pass an entry whose first integer is `pins1` and
whose next integer is `pins2` appends to the ledgers exactly when
0 <= pins1 <= 10 and either pins1 = 10 or 0 <= pins2 <= 10 and
pins1 + pins2 <= 10.  It then appends pins1 followed by the second roll (0 after
a strike) to every ledger; otherwise every ledger and the roster stay as they
were.  Hence in every state that the menu loop reaches from the empty game every
recorded roll lies in [0,10]. -/
theorem C13_only_valid_entries_are_recorded (cin : Nat → Int) (s : EntryState)
    (inputs : List MenuInput) :
    (enterScores.entry cin s).game.players.map Player.rolls =
        (if Spec.validEntry (cin s.consumed) (cin (s.consumed + 1)) then
          s.game.players.map (fun p => p.rolls ++
            [cin s.consumed, if cin s.consumed = 10 then 0 else cin (s.consumed + 1)])
        else s.game.players.map Player.rolls) ∧
      (enterScores.entry cin s).game.players.map Player.name =
        s.game.players.map Player.name ∧
      (if Spec.validEntry (cin s.consumed) (cin (s.consumed + 1)) then
        pinsInRange [cin s.consumed, if cin s.consumed = 10 then 0 else cin (s.consumed + 1)] ∧
          cin s.consumed + (if cin s.consumed = 10 then 0 else cin (s.consumed + 1)) ≤ 10
      else (enterScores.entry cin s).game = s.game) ∧
      ∀ p ∈ (mainLoop BowlingGame.empty inputs).players, pinsInRange p.rolls := by
  refine ⟨?_, ?_, ?_, ?_⟩
  · rw [entry_game_eq]
    split_ifs <;> simp [BowlingGame.roll, Player.roll, Function.comp_def]
  · rw [entry_game_eq]
    split_ifs <;> simp [BowlingGame.roll, Player.roll, Function.comp_def]
  · rw [entry_game_eq]
    split_ifs with hv h10
    · unfold Spec.validEntry at hv
      simp [pinsInRange, h10]
    · unfold Spec.validEntry at hv
      simp only [pinsInRange, List.mem_cons, List.mem_singleton, List.mem_nil_iff, or_false]
      refine ⟨?_, by omega⟩
      rintro x (rfl | rfl) <;> omega
    · trivial
  · exact mainLoop_pinsInRange inputs BowlingGame.empty (by simp [BowlingGame.empty])

/-! ## Sessions built by `addPlayer` and `roll` -/

theorem entry_strike (cin : Nat → Int) (playerName : String) (ledger : List Int) (k : Nat)
    (h : cin k = 10) :
    enterScores.entry cin
        { game := { players := [{ name := playerName, rolls := ledger }] }, consumed := k } =
      { game := { players := [{ name := playerName, rolls := ledger ++ [10, 0] }] },
        consumed := k + 1 } := by
  simp [enterScores.entry, h, BowlingGame.roll, Player.roll]

theorem frames_strikes (cin : Nat → Int) (playerName : String) (n : Nat) (ledger : List Int)
    (k : Nat) (h : ∀ j < n, cin (k + j) = 10) :
    enterScores.frames cin n
        { game := { players := [{ name := playerName, rolls := ledger }] }, consumed := k } =
      { game := { players :=
          [{ name := playerName, rolls := ledger ++ (List.replicate n [10, 0]).flatten }] },
        consumed := k + n } := by
  induction n generalizing ledger k with
  | zero => simp [enterScores.frames]
  | succ n ih =>
    have hk : cin k = 10 := by simpa using h 0 (by omega)
    unfold enterScores.frames
    have hframe : enterScores.frame cin
        { game := { players := [{ name := playerName, rolls := ledger }] }, consumed := k } =
        { game := { players := [{ name := playerName, rolls := ledger ++ [10, 0] }] },
          consumed := k + 1 } := by
      simp only [enterScores.frame, List.foldl_cons, List.foldl_nil]
      exact entry_strike cin playerName ledger k hk
    rw [hframe, ih (ledger ++ [10, 0]) (k + 1) (fun j hj => by
      have := h (j + 1) (by omega)
      rwa [show k + 1 + j = k + (j + 1) by ring])]
    simp [List.replicate_succ, Nat.add_assoc, Nat.add_comm 1 n]

/-- C20: in a session of one player with an empty ledger, typing 10 as first
roll of each of the ten frames of the Enter Scores pass records the ledger 10,0
repeated ten times, 20 rolls, the second roll of each strike being stored as 0.
The scorer computes from that ledger the row [20,30,40,50,60,70,80,90,100,110]
with every read in range. -/
theorem C20_ten_strikes_entered_score_110 (oob : Nat → Int) (playerName : String)
    (cin : Nat → Int) (h : ∀ k < 10, cin k = 10) :
    enterScores cin { players := [Player.new playerName] } =
        { players := [Player.mk playerName
          [10, 0, 10, 0, 10, 0, 10, 0, 10, 0, 10, 0, 10, 0, 10, 0, 10, 0, 10, 0]] } ∧
      [10, 0, 10, 0, 10, 0, 10, 0, 10, 0, 10, 0, 10, 0, 10, 0, 10, 0, 10, (0 : Int)].length = 20 ∧
      readsInRange [10, 0, 10, 0, 10, 0, 10, 0, 10, 0, 10, 0, 10, 0, 10, 0, 10, 0, 10, 0] ∧
      (calculateAndDisplayScores.player oob
          [10, 0, 10, 0, 10, 0, 10, 0, 10, 0, 10, 0, 10, 0, 10, 0, 10, 0, 10, 0]).printed =
        [20, 30, 40, 50, 60, 70, 80, 90, 100, 110] := by
  refine ⟨?_, by decide, by decide, ?_⟩
  · have := frames_strikes cin playerName 10 [] 0 (fun j hj => by simpa using h j hj)
    simp only [enterScores, Player.new, List.isEmpty_cons, Bool.false_eq_true, if_false, this]
    rfl
  · rw [player_eq_of_readsInRange oob _ (by decide)]
    decide

/-- Witness of C20 with the player Ann typing 10 at every prompt. -/
theorem C20_ten_strikes_entered_score_110_witness :
    (∀ k < 10, (fun _ : Nat => (10 : Int)) k = 10) ∧
      (enterScores (fun _ => 10) { players := [Player.new "Ann"] } =
          { players := [Player.mk "Ann"
            [10, 0, 10, 0, 10, 0, 10, 0, 10, 0, 10, 0, 10, 0, 10, 0, 10, 0, 10, 0]] } ∧
        [10, 0, 10, 0, 10, 0, 10, 0, 10, 0, 10, 0, 10, 0, 10, 0, 10, 0, 10, (0 : Int)].length =
          20 ∧
        readsInRange [10, 0, 10, 0, 10, 0, 10, 0, 10, 0, 10, 0, 10, 0, 10, 0, 10, 0, 10, 0] ∧
        (calculateAndDisplayScores.player (fun _ => 0)
            [10, 0, 10, 0, 10, 0, 10, 0, 10, 0, 10, 0, 10, 0, 10, 0, 10, 0, 10, 0]).printed =
          [20, 30, 40, 50, 60, 70, 80, 90, 100, 110]) :=
  ⟨fun _ _ => rfl, C20_ten_strikes_entered_score_110 (fun _ => 0) "Ann" (fun _ => 10) (fun _ _ => rfl)⟩


/-! ## Reads past the end -/

theorem loop_reads_le (oob : Nat → Int) (rolls : List Int) (n : Nat) (t : Int) (c : Nat) :
    ∀ i ∈ (calculateAndDisplayScores.loop oob rolls n t c).reads, i ≤ c + 2 * n := by
  induction n generalizing t c with
  | zero => simp [calculateAndDisplayScores.loop]
  | succ n ih =>
    rw [loop_succ]
    intro i hi
    obtain ⟨hr, h1, h2⟩ := frame_cases oob rolls c
    rcases List.mem_append.mp hi with hi | hi
    · rcases hr with hr | hr <;> rw [hr] at hi <;> simp at hi <;> omega
    · have := ih _ _ i hi
      omega

theorem cursors_bounds (oob : Nat → Int) (rolls : List Int) (n : Nat) (c f x : Nat)
    (h : (calculateAndDisplayScores.cursors oob rolls n c)[f]? = some x) :
    c + f ≤ x ∧ x ≤ c + 2 * f := by
  induction n generalizing c f with
  | zero => simp [calculateAndDisplayScores.cursors] at h
  | succ n ih =>
    unfold calculateAndDisplayScores.cursors at h
    cases f with
    | zero =>
      simp at h
      omega
    | succ f =>
      rw [List.getElem?_cons_succ] at h
      obtain ⟨_, h1, h2⟩ := frame_cases oob rolls c
      have := ih _ f h
      omega

theorem cursors_length (oob : Nat → Int) (rolls : List Int) (n : Nat) (c : Nat) :
    (calculateAndDisplayScores.cursors oob rolls n c).length = n := by
  induction n generalizing c with
  | zero => simp [calculateAndDisplayScores.cursors]
  | succ n ih => simp [calculateAndDisplayScores.cursors, ih]

/-- C6, the code at failing inputs.  On the 5-roll ledger [1,2,3,4,5], where the
reference scorer answers IncompleteGame, the source raises nothing: whatever
lies in memory past the ledger, it writes ten totals, the first two being 3 and
10, and it indexes the vector at 5, past its end; the totals that follow are
made of what it finds there.  The menu reaches the same defect: one player
added by option 1 who types 5 at every prompt of option 2 holds twenty rolls,
and scoring them reads index 20. -/
theorem C6_reads_past_the_end :
    Spec.scoreRow [1, 2, 3, 4, 5] = Except.error SpecError.IncompleteGame ∧
      ¬ readsInRange [1, 2, 3, 4, 5] ∧
      (∀ oob : Nat → Int,
        (calculateAndDisplayScores.player oob [1, 2, 3, 4, 5]).printed.length = 10 ∧
          (calculateAndDisplayScores.player oob [1, 2, 3, 4, 5]).printed.take 2 = [3, 10] ∧
          5 ∈ (calculateAndDisplayScores.player oob [1, 2, 3, 4, 5]).reads) ∧
      ¬ 5 < [(1 : Int), 2, 3, 4, 5].length ∧
      (calculateAndDisplayScores.player (fun _ => 0) [1, 2, 3, 4, 5]).printed =
        [3, 10, 15, 15, 15, 15, 15, 15, 15, 15] ∧
      (calculateAndDisplayScores.player (fun _ => 7) [1, 2, 3, 4, 5]).printed =
        [3, 10, 22, 36, 50, 64, 78, 92, 106, 120] ∧
      (mainLoop BowlingGame.empty
          [{ option := 1, playerName := "A", pins := fun _ => 0 },
            { option := 2, playerName := "", pins := fun _ => 5 }]).players =
        [Player.mk "A" [5, 5, 5, 5, 5, 5, 5, 5, 5, 5, 5, 5, 5, 5, 5, 5, 5, 5, 5, 5]] ∧
      ¬ readsInRange [5, 5, 5, 5, 5, 5, 5, 5, 5, 5, 5, 5, 5, 5, 5, 5, 5, 5, 5, 5] ∧
      20 ∈ (calculateAndDisplayScores.player (fun _ => 0)
        [5, 5, 5, 5, 5, 5, 5, 5, 5, 5, 5, 5, 5, 5, 5, 5, 5, 5, 5, 5]).reads := by
  refine ⟨rfl, by decide, fun oob => ⟨loop_printed_length oob _ 10 0 0, ?_, ?_⟩, by decide,
    by decide, by decide, by decide, by decide, by decide⟩
  · have f0 : calculateAndDisplayScores.frame oob [1, 2, 3, 4, 5] 0 =
        { reads := [0, 1], frameScore := 3, rollIndex := 2 } := by
      rw [frame_open oob _ 0 (by simp [rollAt]) (by simp [rollAt]; decide)]
      simp [rollAt]; decide
    have f2 : calculateAndDisplayScores.frame oob [1, 2, 3, 4, 5] 2 =
        { reads := [2, 3], frameScore := 7, rollIndex := 4 } := by
      rw [frame_open oob _ 2 (by simp [rollAt]) (by simp [rollAt]; decide)]
      simp [rollAt]; decide
    have e1 : addInt 0 3 = 3 := by decide
    have e2 : addInt 3 7 = 10 := by decide
    simp [calculateAndDisplayScores.player, loop_succ, f0, f2, e1, e2]
  · have h : calculateAndDisplayScores.player oob [1, 2, 3, 4, 5] =
        calculateAndDisplayScores.loop oob [1, 2, 3, 4, 5] 10 0 0 := rfl
    have f0 : (calculateAndDisplayScores.frame oob [1, 2, 3, 4, 5] 0).rollIndex = 2 := by
      rw [frame_open oob _ 0 (by simp [rollAt]) (by simp [rollAt]; decide)]
    have f2 : (calculateAndDisplayScores.frame oob [1, 2, 3, 4, 5] 2).rollIndex = 4 := by
      rw [frame_open oob _ 2 (by simp [rollAt]) (by simp [rollAt]; decide)]
    rw [h, loop_succ, loop_succ, loop_succ]
    simp only [f0, f2]
    have h5 : 5 ∈ (calculateAndDisplayScores.frame oob [1, 2, 3, 4, 5] 4).reads := by
      rcases (frame_cases oob [1, 2, 3, 4, 5] 4).1 with hr | hr <;> rw [hr] <;> simp
    simp [h5]

/-! ## Agreement of the two traversals, purity, cursor bounds -/

theorem totalScore_eq_player (oob : Nat → Int) (rolls : List Int) :
    (displayGameSummary.totalScore oob rolls).total =
        (calculateAndDisplayScores.player oob rolls).totalScore ∧
      (displayGameSummary.totalScore oob rolls).reads =
        (calculateAndDisplayScores.player oob rolls).reads :=
  summary_loop_eq oob rolls 10 0 0

theorem totalScore_congr (oob1 oob2 : Nat → Int) (rolls : List Int)
    (h : readsInRange rolls) :
    displayGameSummary.totalScore oob2 rolls = displayGameSummary.totalScore oob1 rolls := by
  have e1 := totalScore_eq_player oob1 rolls
  have e2 := totalScore_eq_player oob2 rolls
  have hp : calculateAndDisplayScores.player oob2 rolls =
      calculateAndDisplayScores.player oob1 rolls := by
    rw [player_eq_of_readsInRange oob2 rolls h, player_eq_of_readsInRange oob1 rolls h]
  rw [hp] at e2
  cases hx : displayGameSummary.totalScore oob2 rolls
  cases hy : displayGameSummary.totalScore oob1 rolls
  rw [hx] at e2
  rw [hy] at e1
  simp only at e1 e2
  rw [e1.1, e1.2, e2.1, e2.2]

/-- C16: for every ledger, and whatever the scorer finds past its end, the
cursor of the scorer at the start of frame f + 1 (f = 0..9) lies between f and
2 f and the scorer never reads an index greater than 20; hence every ledger with
at least 21 rolls is scored, all ten frames, with every read in range, whatever
its contents. -/
theorem C16_cursor_and_read_bounds (oob : Nat → Int) (rolls : List Int) :
    (∀ f c, (calculateAndDisplayScores.cursors oob rolls 10 0)[f]? = some c →
        f ≤ c ∧ c ≤ 2 * f) ∧
      (∀ i ∈ (calculateAndDisplayScores.player oob rolls).reads, i ≤ 20) ∧
      (21 ≤ rolls.length →
        readsInRange rolls ∧
          (calculateAndDisplayScores.cursors oob rolls 10 0).length = 10 ∧
          (calculateAndDisplayScores.player oob rolls).printed.length = 10) := by
  have hreads : ∀ (oob : Nat → Int),
      ∀ i ∈ (calculateAndDisplayScores.player oob rolls).reads, i ≤ 20 := by
    intro oob i hi
    have := loop_reads_le oob rolls 10 0 0 i hi
    omega
  refine ⟨?_, hreads oob, ?_⟩
  · intro f c h
    have := cursors_bounds oob rolls 10 0 f c h
    omega
  · intro hlen
    refine ⟨?_, cursors_length oob rolls 10 0, loop_printed_length oob rolls 10 0 0⟩
    intro i hi
    have := hreads _ i hi
    omega

/-- Witness of C16 on a ledger of 21 rolls mixing strikes, spares and values
outside [0,10]. -/
theorem C16_cursor_and_read_bounds_witness :
    21 ≤ [10, 3, 7, -4, 14, 10, 10, 0, 0, 5, 5, 99, 1, 2, 8, 10, 10, 10, 6, 4, 7].length ∧
      (readsInRange [10, 3, 7, -4, 14, 10, 10, 0, 0, 5, 5, 99, 1, 2, 8, 10, 10, 10, 6, 4, 7] ∧
        (calculateAndDisplayScores.cursors (fun _ => 0)
          [10, 3, 7, -4, 14, 10, 10, 0, 0, 5, 5, 99, 1, 2, 8, 10, 10, 10, 6, 4, 7]
          10 0).length = 10 ∧
        (calculateAndDisplayScores.player (fun _ => 0)
          [10, 3, 7, -4, 14, 10, 10, 0, 0, 5, 5, 99, 1, 2, 8, 10, 10, 10, 6, 4, 7]).printed.length
            = 10) :=
  ⟨by decide, (C16_cursor_and_read_bounds (fun _ => 0) _).2.2 (by decide)⟩

/-! ## Bounds and monotonicity of the totals -/

theorem frame_values (oob : Nat → Int) (rolls : List Int) (c : Nat)
    (h : ∀ i ∈ (calculateAndDisplayScores.frame oob rolls c).reads, i < rolls.length) :
    ∃ r0 ∈ rolls, ∃ r1 ∈ rolls,
      (calculateAndDisplayScores.frame oob rolls c).frameScore = addInt r0 r1 ∨
        ∃ r2 ∈ rolls,
          (calculateAndDisplayScores.frame oob rolls c).frameScore = addInt (addInt r0 r1) r2 ∨
            (calculateAndDisplayScores.frame oob rolls c).frameScore =
              addInt r0 (addInt r1 r2) := by
  obtain ⟨hc, hc1⟩ := frame_reads_lt oob rolls c h
  refine ⟨_, rollAt_mem oob rolls c hc, _, rollAt_mem oob rolls (c + 1) hc1, ?_⟩
  by_cases h10 : rollAt oob rolls c = 10
  · rw [frame_strike oob rolls c h10] at h ⊢
    exact Or.inr ⟨_, rollAt_mem oob rolls (c + 2) (h (c + 2) (by simp)), Or.inr rfl⟩
  · by_cases h2 : addInt (rollAt oob rolls c) (rollAt oob rolls (c + 1)) = 10
    · rw [frame_spare oob rolls c h10 h2] at h ⊢
      exact Or.inr ⟨_, rollAt_mem oob rolls (c + 2) (h (c + 2) (by simp)), Or.inl rfl⟩
    · rw [frame_open oob rolls c h10 h2]
      exact Or.inl rfl

theorem frame_score_bounds (oob : Nat → Int) (rolls : List Int) (c : Nat) (m : Int)
    (hm : 0 ≤ m ∧ m ≤ 71582788) (hp : ∀ x ∈ rolls, 0 ≤ x ∧ x ≤ m)
    (h : ∀ i ∈ (calculateAndDisplayScores.frame oob rolls c).reads, i < rolls.length) :
    0 ≤ (calculateAndDisplayScores.frame oob rolls c).frameScore ∧
      (calculateAndDisplayScores.frame oob rolls c).frameScore ≤ 3 * m := by
  obtain ⟨r0, h0, r1, h1, hfs⟩ := frame_values oob rolls c h
  have b0 := hp r0 h0
  have b1 := hp r1 h1
  rcases hfs with hfs | ⟨r2, h2, hfs | hfs⟩
  · rw [hfs]; unfold addInt wrapInt; omega
  · have b2 := hp r2 h2
    rw [hfs]; unfold addInt wrapInt; omega
  · have b2 := hp r2 h2
    rw [hfs]; unfold addInt wrapInt; omega

theorem loop_chain (oob : Nat → Int) (rolls : List Int) (m : Int)
    (hm : 0 ≤ m ∧ m ≤ 71582788) (hp : ∀ x ∈ rolls, 0 ≤ x ∧ x ≤ m) (n : Nat) (t : Int)
    (c : Nat)
    (h : ∀ i ∈ (calculateAndDisplayScores.loop oob rolls n t c).reads, i < rolls.length)
    (ht : 0 ≤ t ∧ t + 3 * m * (n : Int) ≤ 2147483647) :
    List.Chain (fun before after : Int => 0 ≤ after - before ∧ after - before ≤ 3 * m) t
        (calculateAndDisplayScores.loop oob rolls n t c).printed ∧
      t ≤ (calculateAndDisplayScores.loop oob rolls n t c).totalScore ∧
      (calculateAndDisplayScores.loop oob rolls n t c).totalScore ≤ t + 3 * m * (n : Int) := by
  induction n generalizing t c with
  | zero => simp [calculateAndDisplayScores.loop]
  | succ n ih =>
    obtain ⟨hf, hr⟩ := loop_reads_split oob rolls n t c h
    obtain ⟨hlo, hhi⟩ := frame_score_bounds oob rolls c m hm hp hf
    have hmn : 0 ≤ 3 * m * (n : Int) :=
      mul_nonneg (by linarith [hm.1]) (Int.ofNat_nonneg n)
    have eadd : addInt t (calculateAndDisplayScores.frame oob rolls c).frameScore =
        t + (calculateAndDisplayScores.frame oob rolls c).frameScore :=
      wrapInt_of_fits _ (by push_cast at ht; constructor <;> nlinarith)
    rw [loop_succ]
    rw [eadd] at hr ⊢
    have := ih _ _ hr (by push_cast at ht; constructor <;> nlinarith)
    refine ⟨List.Chain.cons (by constructor <;> linarith) this.1, by linarith [this.2.1], ?_⟩
    push_cast
    nlinarith [this.2.2]

/-- C17: for every ledger all of whose rolls lie in [0,10] and on which the
scorer reads only in-range indices, every frame value, the amount by which a
written total exceeds the total before it (0 before the first frame), lies
between 0 and 30, and the tenth cumulative score lies between 0 and 300. -/
theorem C17_frame_values_and_total_bounded (oob : Nat → Int) (rolls : List Int)
    (hpins : pinsInRange rolls) (hreads : readsInRange rolls) :
    List.Chain (fun before after : Int => 0 ≤ after - before ∧ after - before ≤ 30) 0
        (calculateAndDisplayScores.player oob rolls).printed ∧
      (calculateAndDisplayScores.player oob rolls).printed.length = 10 ∧
      ∃ total, (calculateAndDisplayScores.player oob rolls).printed[9]? = some total ∧
        0 ≤ total ∧ total ≤ 300 := by
  have h := loop_chain oob rolls 10 (by norm_num) hpins 10 0 0
    ((readsInRange_iff oob rolls).mp hreads) (by norm_num)
  refine ⟨by simpa using h.1, loop_printed_length oob rolls 10 0 0,
    _, loop_total_eq_last_printed oob rolls 9 0 0, h.2.1, ?_⟩
  have := h.2.2
  norm_num at this
  exact this

/-- Witness of C17 on the all-spares game with a final bonus of 5. -/
theorem C17_frame_values_and_total_bounded_witness :
    pinsInRange [5, 5, 5, 5, 5, 5, 5, 5, 5, 5, 5, 5, 5, 5, 5, 5, 5, 5, 5, 5, 5] ∧
      readsInRange [5, 5, 5, 5, 5, 5, 5, 5, 5, 5, 5, 5, 5, 5, 5, 5, 5, 5, 5, 5, 5] ∧
      (List.Chain (fun before after : Int => 0 ≤ after - before ∧ after - before ≤ 30) 0
          (calculateAndDisplayScores.player (fun _ => 0)
            [5, 5, 5, 5, 5, 5, 5, 5, 5, 5, 5, 5, 5, 5, 5, 5, 5, 5, 5, 5, 5]).printed ∧
        (calculateAndDisplayScores.player (fun _ => 0)
          [5, 5, 5, 5, 5, 5, 5, 5, 5, 5, 5, 5, 5, 5, 5, 5, 5, 5, 5, 5, 5]).printed.length = 10 ∧
        ∃ total, (calculateAndDisplayScores.player (fun _ => 0)
            [5, 5, 5, 5, 5, 5, 5, 5, 5, 5, 5, 5, 5, 5, 5, 5, 5, 5, 5, 5, 5]).printed[9]? =
              some total ∧
          0 ≤ total ∧ total ≤ 300) :=
  ⟨by decide, by decide,
    C17_frame_values_and_total_bounded (fun _ => 0) _ (by decide) (by decide)⟩

/-- C18 as stated fails: the ledger 1, 1, 2147483647, 1 followed by seventeen 0
holds non-negative rolls only and is scored with every read in range, but the
`int` sum of the second frame wraps and the totals written drop from 2 to
-2147483646. -/
theorem C18_wrapped_totals_drop :
    (∀ x ∈ [1, 1, 2147483647, 1, 0, 0, 0, 0, 0, 0, 0, 0, 0, 0, 0, 0, 0, 0, 0, 0, 0],
        (0 : Int) ≤ x) ∧
      readsInRange [1, 1, 2147483647, 1, 0, 0, 0, 0, 0, 0, 0, 0, 0, 0, 0, 0, 0, 0, 0, 0, 0] ∧
      ∀ oob : Nat → Int,
        (calculateAndDisplayScores.player oob
            [1, 1, 2147483647, 1, 0, 0, 0, 0, 0, 0, 0, 0, 0, 0, 0, 0, 0, 0, 0, 0, 0]).printed.take
              2 = [2, -2147483646] ∧
          ¬ (calculateAndDisplayScores.player oob
            [1, 1, 2147483647, 1, 0, 0, 0, 0, 0, 0, 0, 0, 0, 0, 0, 0, 0, 0, 0, 0, 0]).printed.Sorted
              (fun a b : Int => a ≤ b) := by
  refine ⟨by decide, by decide, fun oob => ?_⟩
  rw [player_eq_of_readsInRange oob _ (by decide)]
  decide

/-- C18, amended: for every ledger all of whose rolls lie between 0 and
71582788, so that no sum of the scorer leaves the range of `int`, and on which
the scorer reads only in-range indices, the ten cumulative frame scores are
non-decreasing from frame 1 to frame 10. -/
theorem C18_totals_non_decreasing (oob : Nat → Int) (rolls : List Int)
    (hpins : ∀ x ∈ rolls, 0 ≤ x ∧ x ≤ 71582788) (hreads : readsInRange rolls) :
    (calculateAndDisplayScores.player oob rolls).printed.length = 10 ∧
      (calculateAndDisplayScores.player oob rolls).printed.Sorted (fun a b : Int => a ≤ b) := by
  refine ⟨loop_printed_length oob rolls 10 0 0, ?_⟩
  have h := (loop_chain oob rolls 71582788 (by norm_num) hpins 10 0 0
    ((readsInRange_iff oob rolls).mp hreads) (by norm_num)).1
  have hchain : List.Chain (fun a b : Int => a ≤ b) 0
      (calculateAndDisplayScores.player oob rolls).printed :=
    h.imp (fun {a b} hab => by linarith [hab.1])
  exact (List.chain_iff_pairwise.mp hchain).of_cons

/-- Witness of the amended C18 on a ledger with rolls above 10. -/
theorem C18_totals_non_decreasing_witness :
    (∀ x ∈ [12, 0, 3, 7, 40, 10, 10, 1, 1, 0, 0, 5, 5, 9, 1, 2, 2, 10, 6, 6, 0],
        (0 : Int) ≤ x ∧ x ≤ 71582788) ∧
      readsInRange [12, 0, 3, 7, 40, 10, 10, 1, 1, 0, 0, 5, 5, 9, 1, 2, 2, 10, 6, 6, 0] ∧
      ((calculateAndDisplayScores.player (fun _ => 0)
          [12, 0, 3, 7, 40, 10, 10, 1, 1, 0, 0, 5, 5, 9, 1, 2, 2, 10, 6, 6, 0]).printed.length
            = 10 ∧
        (calculateAndDisplayScores.player (fun _ => 0)
          [12, 0, 3, 7, 40, 10, 10, 1, 1, 0, 0, 5, 5, 9, 1, 2, 2, 10, 6, 6, 0]).printed.Sorted
            (fun a b : Int => a ≤ b)) :=
  ⟨by decide, by decide, C18_totals_non_decreasing (fun _ => 0) _ (by decide) (by decide)⟩

/-! ## Open frames -/

theorem sum_take_two (rolls : List Int) (i : Nat) (h : i + 1 < rolls.length) :
    (rolls.take (i + 2)).sum = (rolls.take i).sum + (rolls.getD i 0 + rolls.getD (i + 1) 0) := by
  have h0 : i < rolls.length := by omega
  rw [List.sum_take_succ rolls (i + 1) h, List.sum_take_succ rolls i h0,
    List.getD_eq_getElem _ _ h0, List.getD_eq_getElem _ _ h]
  ring

theorem sum_take_bounds (rolls : List Int) (hs : smallPins rolls) (k : Nat) :
    -71582788 * (k : Int) ≤ (rolls.take k).sum ∧ (rolls.take k).sum ≤ 71582788 * (k : Int) := by
  induction k with
  | zero => simp
  | succ k ih =>
    by_cases hk : k < rolls.length
    · rw [List.sum_take_succ rolls k hk]
      have := hs _ (List.getElem_mem hk)
      push_cast
      omega
    · rw [List.take_of_length_le (by omega)] at ih ⊢
      push_cast
      omega

theorem loop_open_frames (oob : Nat → Int) (rolls : List Int) (hs : smallPins rolls)
    (n j : Nat) (hj : j + n ≤ 10) (hlen : 2 * (j + n) ≤ rolls.length)
    (hopen : ∀ k, j ≤ k → k < j + n →
      rolls.getD (2 * k) 0 ≠ 10 ∧ rolls.getD (2 * k) 0 + rolls.getD (2 * k + 1) 0 ≠ 10) :
    (calculateAndDisplayScores.loop oob rolls n (rolls.take (2 * j)).sum (2 * j)).printed =
        (List.range n).map (fun f => (rolls.take (2 * (j + f + 1))).sum) ∧
      (calculateAndDisplayScores.loop oob rolls n (rolls.take (2 * j)).sum (2 * j)).totalScore =
        (rolls.take (2 * (j + n))).sum ∧
      (calculateAndDisplayScores.loop oob rolls n (rolls.take (2 * j)).sum (2 * j)).rollIndex =
        2 * (j + n) ∧
      ∀ i ∈ (calculateAndDisplayScores.loop oob rolls n (rolls.take (2 * j)).sum
          (2 * j)).reads, i < rolls.length := by
  induction n generalizing j with
  | zero => simp [calculateAndDisplayScores.loop]
  | succ n ih =>
    have hc : 2 * j < rolls.length := by omega
    have hc1 : 2 * j + 1 < rolls.length := by omega
    have ho := hopen j (le_refl j) (by omega)
    have b0 := hs _ (rollAt_mem oob rolls (2 * j) hc)
    have b1 := hs _ (rollAt_mem oob rolls (2 * j + 1) hc1)
    have e0 := rollAt_eq_getD oob rolls (2 * j) hc
    have e1 := rollAt_eq_getD oob rolls (2 * j + 1) hc1
    have e01 : addInt (rollAt oob rolls (2 * j)) (rollAt oob rolls (2 * j + 1)) =
        rollAt oob rolls (2 * j) + rollAt oob rolls (2 * j + 1) :=
      wrapInt_of_fits _ (by omega)
    have hframe := frame_open oob rolls (2 * j) (by rw [e0]; exact ho.1)
      (by rw [e01, e0, e1]; exact ho.2)
    have hsum := sum_take_two rolls (2 * j) hc1
    have hb := sum_take_bounds rolls hs (2 * j + 2)
    have hj10 : ((2 * j + 2 : Nat) : Int) ≤ 20 := by
      have : 2 * j + 2 ≤ 20 := by omega
      exact_mod_cast this
    have eadd : addInt (rolls.take (2 * j)).sum
        (rollAt oob rolls (2 * j) + rollAt oob rolls (2 * j + 1)) =
        (rolls.take (2 * j + 2)).sum := by
      rw [hsum, ← e0, ← e1]
      rw [hsum, ← e0, ← e1] at hb
      exact wrapInt_of_fits _ (by omega)
    have hc2 : 2 * j + 2 = 2 * (j + 1) := by ring
    have := ih (j + 1) (by omega) (by omega) (fun k hk1 hk2 => hopen k (by omega) (by omega))
    rw [loop_succ, hframe]
    simp only [e01, eadd, hc2]
    rw [this.1, this.2.1, this.2.2.1, List.range_succ_eq_map]
    refine ⟨?_, ?_, ?_, ?_⟩
    · simp only [List.map_cons, List.map_map, Function.comp_def, Nat.add_zero]
      refine congrArg₂ _ rfl (List.map_congr_left ?_)
      intro f _
      have : j + 1 + f + 1 = j + (f + 1) + 1 := by ring
      rw [this]
    · have : j + 1 + n = j + (n + 1) := by ring
      rw [this]
    · ring
    · intro i hi
      rcases List.mem_append.mp hi with hi | hi
      · simp at hi
        omega
      · exact this.2.2.2 i hi

/-- C19 as stated fails: the ledger -2147483648, -2147483638, 7 followed by
eighteen 0 has 21 rolls, no roll equal to 10 at an even position and no pair
summing to 10, but the `int` sum of its first two rolls wraps to 10 and is
taken for a spare: the source writes 17, 24, 24, ... and not the sums of the
first 2f rolls. -/
theorem C19_wrapped_sum_is_taken_for_a_spare :
    20 ≤ [-2147483648, -2147483638, 7, 0, 0, 0, 0, 0, 0, 0, 0, 0, 0, 0, 0, 0, 0, 0, 0, 0,
        (0 : Int)].length ∧
      (∀ k < 10,
        [-2147483648, -2147483638, 7, 0, 0, 0, 0, 0, 0, 0, 0, 0, 0, 0, 0, 0, 0, 0, 0, 0,
            (0 : Int)].getD (2 * k) 0 ≠ 10 ∧
          [-2147483648, -2147483638, 7, 0, 0, 0, 0, 0, 0, 0, 0, 0, 0, 0, 0, 0, 0, 0, 0, 0,
              (0 : Int)].getD (2 * k) 0 +
            [-2147483648, -2147483638, 7, 0, 0, 0, 0, 0, 0, 0, 0, 0, 0, 0, 0, 0, 0, 0, 0, 0,
              (0 : Int)].getD (2 * k + 1) 0 ≠ 10) ∧
      readsInRange [-2147483648, -2147483638, 7, 0, 0, 0, 0, 0, 0, 0, 0, 0, 0, 0, 0, 0, 0, 0,
        0, 0, 0] ∧
      ∀ oob : Nat → Int,
        (calculateAndDisplayScores.player oob
            [-2147483648, -2147483638, 7, 0, 0, 0, 0, 0, 0, 0, 0, 0, 0, 0, 0, 0, 0, 0, 0, 0,
              0]).printed = [17, 24, 24, 24, 24, 24, 24, 24, 24, 24] ∧
          (calculateAndDisplayScores.player oob
            [-2147483648, -2147483638, 7, 0, 0, 0, 0, 0, 0, 0, 0, 0, 0, 0, 0, 0, 0, 0, 0, 0,
              0]).printed ≠
            (List.range 10).map (fun f =>
              ([-2147483648, -2147483638, 7, 0, 0, 0, 0, 0, 0, 0, 0, 0, 0, 0, 0, 0, 0, 0, 0, 0,
                (0 : Int)].take (2 * (f + 1))).sum) := by
  refine ⟨by decide, by decide, by decide, fun oob => ?_⟩
  rw [player_eq_of_readsInRange oob _ (by decide)]
  decide

/-- C19, amended: for every ledger of at least 20 rolls whose rolls have
absolute value at most 71582788, so that no sum of the scorer leaves the range
of `int`, and that has no strike and no spare at the positions 2k, 2k+1
(k = 0..9), every read is in range, the cumulative score of frame f is the sum
of the first 2f rolls for f = 1..10, and the final score is the sum of the first
20 rolls. -/
theorem C19_open_frames_sum_the_rolls (oob : Nat → Int) (rolls : List Int)
    (hs : smallPins rolls) (hlen : 20 ≤ rolls.length)
    (hopen : ∀ k < 10,
      rolls.getD (2 * k) 0 ≠ 10 ∧ rolls.getD (2 * k) 0 + rolls.getD (2 * k + 1) 0 ≠ 10) :
    readsInRange rolls ∧
      (calculateAndDisplayScores.player oob rolls).printed =
        (List.range 10).map (fun f => (rolls.take (2 * (f + 1))).sum) ∧
      (calculateAndDisplayScores.player oob rolls).totalScore = (rolls.take 20).sum ∧
      (calculateAndDisplayScores.player oob rolls).rollIndex = 20 := by
  have h := loop_open_frames oob rolls hs 10 0 (by omega) (by omega)
    (fun k _ hk => hopen k (by omega))
  simp only [Nat.mul_zero, List.take_zero, List.sum_nil, Nat.zero_add] at h
  exact ⟨(readsInRange_iff oob rolls).mpr h.2.2.2, h.1, h.2.1, h.2.2.1⟩

/-- Witness of the amended C19 on twenty rolls alternating 3 and 4. -/
theorem C19_open_frames_sum_the_rolls_witness :
    smallPins [3, 4, 3, 4, 3, 4, 3, 4, 3, 4, 3, 4, 3, 4, 3, 4, 3, 4, 3, 4] ∧
      20 ≤ [3, 4, 3, 4, 3, 4, 3, 4, 3, 4, 3, 4, 3, 4, 3, 4, 3, 4, 3, (4 : Int)].length ∧
      (∀ k < 10,
        [3, 4, 3, 4, 3, 4, 3, 4, 3, 4, 3, 4, 3, 4, 3, 4, 3, 4, 3, (4 : Int)].getD (2 * k) 0 ≠ 10 ∧
          [3, 4, 3, 4, 3, 4, 3, 4, 3, 4, 3, 4, 3, 4, 3, 4, 3, 4, 3, (4 : Int)].getD (2 * k) 0 +
            [3, 4, 3, 4, 3, 4, 3, 4, 3, 4, 3, 4, 3, 4, 3, 4, 3, 4, 3, (4 : Int)].getD
              (2 * k + 1) 0 ≠ 10) ∧
      (readsInRange [3, 4, 3, 4, 3, 4, 3, 4, 3, 4, 3, 4, 3, 4, 3, 4, 3, 4, 3, 4] ∧
        (calculateAndDisplayScores.player (fun _ => 0)
            [3, 4, 3, 4, 3, 4, 3, 4, 3, 4, 3, 4, 3, 4, 3, 4, 3, 4, 3, 4]).printed =
          (List.range 10).map (fun f =>
            ([3, 4, 3, 4, 3, 4, 3, 4, 3, 4, 3, 4, 3, 4, 3, 4, 3, 4, 3, (4 : Int)].take
              (2 * (f + 1))).sum) ∧
        (calculateAndDisplayScores.player (fun _ => 0)
            [3, 4, 3, 4, 3, 4, 3, 4, 3, 4, 3, 4, 3, 4, 3, 4, 3, 4, 3, 4]).totalScore =
          ([3, 4, 3, 4, 3, 4, 3, 4, 3, 4, 3, 4, 3, 4, 3, 4, 3, 4, 3, (4 : Int)].take 20).sum ∧
        (calculateAndDisplayScores.player (fun _ => 0)
            [3, 4, 3, 4, 3, 4, 3, 4, 3, 4, 3, 4, 3, 4, 3, 4, 3, 4, 3, 4]).rollIndex = 20) :=
  ⟨by decide, by decide, by decide,
    C19_open_frames_sum_the_rolls (fun _ => 0) _ (by decide) (by decide) (by decide)⟩

/-! ## The ranking -/

theorem playerRanking_pairs (oob : Nat → Int) (ps : List Player) :
    List.Forall₂ (fun (p : Player) (e : String × Int) =>
        e.1 = p.name ∧ (displayGameSummary.totalScore oob p.rolls).total = e.2)
      ps (displayGameSummary.playerRanking oob ps) := by
  induction ps with
  | nil => exact List.Forall₂.nil
  | cons p ps ih => exact List.Forall₂.cons ⟨rfl, rfl⟩ ih

theorem playerRanking_congr (oob1 oob2 : Nat → Int) (ps : List Player)
    (h : ∀ p ∈ ps, readsInRange p.rolls) :
    displayGameSummary.playerRanking oob2 ps = displayGameSummary.playerRanking oob1 ps := by
  induction ps with
  | nil => rfl
  | cons p ps ih =>
    simp only [displayGameSummary.playerRanking]
    rw [totalScore_congr oob1 oob2 p.rolls (h p (List.mem_cons_self _ _)),
      ih (fun q hq => h q (List.mem_cons_of_mem _ hq))]

theorem playerRanking_length (oob : Nat → Int) (ps : List Player) :
    (displayGameSummary.playerRanking oob ps).length = ps.length := by
  induction ps with
  | nil => rfl
  | cons p ps ih => simp [displayGameSummary.playerRanking, ih]

theorem comp_false_iff (a b : String × Int) :
    displayGameSummary.comp b a = false ↔ a.2 ≥ b.2 := by
  simp [displayGameSummary.comp]

theorem comp_true_iff (a b : String × Int) :
    displayGameSummary.comp a b = true ↔ a.2 > b.2 := by
  simp [displayGameSummary.comp]

theorem insertionSortBy_stdSort :
    StdSort insertionSortBy displayGameSummary.comp := by
  intro xs
  haveI : IsTotal (String × Int) (fun a b => displayGameSummary.comp b a = false) :=
    ⟨fun a b => by simp only [comp_false_iff]; omega⟩
  haveI : IsTrans (String × Int) (fun a b => displayGameSummary.comp b a = false) :=
    ⟨fun a b c => by simp only [comp_false_iff]; omega⟩
  exact ⟨List.perm_insertionSort _ xs, List.sorted_insertionSort _ xs⟩

/-- C9: for every roster whose ledgers can all be scored, and every `std::sort`
that meets the guarantee of the language, `displayGameSummary` builds one pair
(name, final score) per player, the same whatever lies in memory past the
ledgers, and its ranking is a permutation of these pairs in which scores are
non-increasing from first to last. -/
theorem C9_ranking_is_sorted_permutation (oob : Nat → Int)
    (sort : (String × Int → String × Int → Bool) → List (String × Int) → List (String × Int))
    (hsort : StdSort sort displayGameSummary.comp) (g : BowlingGame)
    (h : ∀ p ∈ g.players, readsInRange p.rolls) :
    ∃ pairs ranking,
      List.Forall₂ (fun (p : Player) (e : String × Int) =>
        e.1 = p.name ∧ (displayGameSummary.totalScore oob p.rolls).total = e.2)
        g.players pairs ∧
      (∀ oob2 : Nat → Int, displayGameSummary.playerRanking oob2 g.players = pairs) ∧
      displayGameSummary.ranking oob sort g = ranking ∧
      ranking.Perm pairs ∧
      ranking.Pairwise (fun a b => a.2 ≥ b.2) := by
  refine ⟨displayGameSummary.playerRanking oob g.players,
    sort displayGameSummary.comp (displayGameSummary.playerRanking oob g.players),
    playerRanking_pairs oob g.players, fun oob2 => playerRanking_congr oob oob2 g.players h,
    rfl, (hsort _).1, ?_⟩
  exact (hsort _).2.imp (fun {a b} hab => (comp_false_iff a b).mp hab)

/-- Witness of C9 with the insertion sort on a roster of a gutter game followed
by a perfect game. -/
theorem C9_ranking_is_sorted_permutation_witness :
    StdSort insertionSortBy displayGameSummary.comp ∧
      (∀ p ∈ (BowlingGame.mk [{ name := "Bob", rolls := List.replicate 20 0 },
          { name := "Eve", rolls := List.replicate 12 10 }]).players, readsInRange p.rolls) ∧
      ∃ pairs ranking,
        List.Forall₂ (fun (p : Player) (e : String × Int) =>
          e.1 = p.name ∧ (displayGameSummary.totalScore (fun _ => 0) p.rolls).total = e.2)
          (BowlingGame.mk [{ name := "Bob", rolls := List.replicate 20 0 },
            { name := "Eve", rolls := List.replicate 12 10 }]).players pairs ∧
        (∀ oob2 : Nat → Int, displayGameSummary.playerRanking oob2
          (BowlingGame.mk [{ name := "Bob", rolls := List.replicate 20 0 },
            { name := "Eve", rolls := List.replicate 12 10 }]).players = pairs) ∧
        displayGameSummary.ranking (fun _ => 0) insertionSortBy
          (BowlingGame.mk [{ name := "Bob", rolls := List.replicate 20 0 },
            { name := "Eve", rolls := List.replicate 12 10 }]) = ranking ∧
        ranking.Perm pairs ∧
        ranking.Pairwise (fun a b => a.2 ≥ b.2) :=
  ⟨insertionSortBy_stdSort, by decide,
    C9_ranking_is_sorted_permutation (fun _ => 0) insertionSortBy insertionSortBy_stdSort _
      (by decide)⟩

/-! ## The order of ties under the `std::sort` of libstdc++ -/

theorem unguardedLinearInsert_perm (x : String × Int) (rs : List (String × Int)) :
    (Libstdcxx.unguardedLinearInsert displayGameSummary.comp x rs).Perm (x :: rs) := by
  induction rs with
  | nil => simp [Libstdcxx.unguardedLinearInsert]
  | cons next below ih =>
    unfold Libstdcxx.unguardedLinearInsert
    split_ifs
    · exact (List.Perm.cons next ih).trans (List.Perm.swap x next below)
    · exact List.Perm.refl _

theorem unguardedLinearInsert_filter (s : Int) (x : String × Int)
    (rs : List (String × Int)) :
    (Libstdcxx.unguardedLinearInsert displayGameSummary.comp x rs).filter
        (fun e => decide (e.2 = s)) =
      (x :: rs).filter (fun e => decide (e.2 = s)) := by
  induction rs with
  | nil => simp [Libstdcxx.unguardedLinearInsert]
  | cons next below ih =>
    unfold Libstdcxx.unguardedLinearInsert
    split_ifs with hc
    · have hlt : x.2 > next.2 := (comp_true_iff x next).mp hc
      rw [List.filter_cons, ih]
      by_cases hx : x.2 = s
      · have hn : ¬ next.2 = s := by omega
        simp [List.filter_cons, hx, hn]
      · simp [List.filter_cons, hx]
    · rfl

theorem unguardedLinearInsert_sorted (x : String × Int) (rs : List (String × Int))
    (h : rs.Pairwise (fun a b => a.2 ≤ b.2)) :
    (Libstdcxx.unguardedLinearInsert displayGameSummary.comp x rs).Pairwise
      (fun a b => a.2 ≤ b.2) := by
  induction rs with
  | nil => simp [Libstdcxx.unguardedLinearInsert]
  | cons next below ih =>
    unfold Libstdcxx.unguardedLinearInsert
    have hb := List.pairwise_cons.mp h
    split_ifs with hc
    · have hlt : x.2 > next.2 := (comp_true_iff x next).mp hc
      refine List.pairwise_cons.mpr ⟨?_, ih hb.2⟩
      intro e he
      rcases List.mem_cons.mp ((unguardedLinearInsert_perm x below).mem_iff.mp he) with rfl | he
      · omega
      · exact hb.1 e he
    · have hle : x.2 ≤ next.2 := by
        have := (comp_true_iff x next).not.mp hc
        omega
      refine List.pairwise_cons.mpr ⟨?_, h⟩
      intro e he
      rcases List.mem_cons.mp he with rfl | he
      · exact hle
      · have := hb.1 e he
        omega

theorem insertStep_spec (s : Int) (x : String × Int) (sorted : List (String × Int))
    (h : sorted.Pairwise (fun a b => a.2 ≥ b.2)) :
    (Libstdcxx.insertStep displayGameSummary.comp x sorted).Pairwise (fun a b => a.2 ≥ b.2) ∧
      (Libstdcxx.insertStep displayGameSummary.comp x sorted).Perm (sorted ++ [x]) ∧
      (Libstdcxx.insertStep displayGameSummary.comp x sorted).filter
          (fun e => decide (e.2 = s)) =
        (sorted ++ [x]).filter (fun e => decide (e.2 = s)) := by
  cases sorted with
  | nil => simp [Libstdcxx.insertStep]
  | cons first others =>
    have hb := List.pairwise_cons.mp h
    simp only [Libstdcxx.insertStep]
    split_ifs with hc
    · have hlt : x.2 > first.2 := (comp_true_iff x first).mp hc
      have hall : ∀ e ∈ first :: others, e.2 < x.2 := by
        intro e he
        rcases List.mem_cons.mp he with rfl | he
        · exact hlt
        · have := hb.1 e he
          omega
      refine ⟨List.pairwise_cons.mpr ⟨fun e he => le_of_lt (hall e he), h⟩,
        (List.perm_append_singleton x (first :: others)).symm, ?_⟩
      by_cases hx : x.2 = s
      · have hnone : (first :: others).filter (fun e => decide (e.2 = s)) = [] := by
          rw [List.filter_eq_nil_iff]
          intro e he
          have := hall e he
          simp only [decide_eq_true_eq]
          omega
        rw [List.filter_append, hnone, List.filter_cons, hnone]
        simp [hx]
      · rw [List.filter_append]
        simp [List.filter_cons, hx]
    · have hasc : (first :: others).reverse.Pairwise (fun a b => a.2 ≤ b.2) := by
        rw [List.pairwise_reverse]
        exact h.imp (fun {a b} hab => hab)
      refine ⟨?_, ?_, ?_⟩
      · rw [List.pairwise_reverse]
        exact (unguardedLinearInsert_sorted x _ hasc).imp (fun {a b} hab => hab)
      · refine (List.reverse_perm _).trans ((unguardedLinearInsert_perm x _).trans ?_)
        exact ((List.Perm.cons x (List.reverse_perm _)).trans
          (List.perm_append_singleton x (first :: others)).symm)
      · have e : x :: (first :: others).reverse = (first :: others ++ [x]).reverse := by
          simp
        rw [List.filter_reverse, unguardedLinearInsert_filter, e, List.filter_reverse,
          List.reverse_reverse]

theorem insertionSortLoop_spec (s : Int) (rest sorted : List (String × Int))
    (h : sorted.Pairwise (fun a b => a.2 ≥ b.2)) :
    (Libstdcxx.insertionSortLoop displayGameSummary.comp sorted rest).Pairwise
        (fun a b => a.2 ≥ b.2) ∧
      (Libstdcxx.insertionSortLoop displayGameSummary.comp sorted rest).Perm (sorted ++ rest) ∧
      (Libstdcxx.insertionSortLoop displayGameSummary.comp sorted rest).filter
          (fun e => decide (e.2 = s)) =
        (sorted ++ rest).filter (fun e => decide (e.2 = s)) := by
  induction rest generalizing sorted with
  | nil => simp [Libstdcxx.insertionSortLoop, h]
  | cons x rest ih =>
    obtain ⟨h1, h2, h3⟩ := insertStep_spec s x sorted h
    obtain ⟨i1, i2, i3⟩ := ih _ h1
    unfold Libstdcxx.insertionSortLoop
    refine ⟨i1, ?_, ?_⟩
    · refine i2.trans ?_
      have := List.Perm.append_right rest h2
      simpa using this
    · rw [i3, List.filter_append, h3, ← List.filter_append]
      simp

theorem insertionSort_spec (s : Int) (xs : List (String × Int)) :
    (Libstdcxx.insertionSort displayGameSummary.comp xs).Pairwise (fun a b => a.2 ≥ b.2) ∧
      (Libstdcxx.insertionSort displayGameSummary.comp xs).Perm xs ∧
      (Libstdcxx.insertionSort displayGameSummary.comp xs).filter
          (fun e => decide (e.2 = s)) =
        xs.filter (fun e => decide (e.2 = s)) := by
  cases xs with
  | nil => simp [Libstdcxx.insertionSort]
  | cons first rest =>
    have := insertionSortLoop_spec s rest [first] (List.pairwise_singleton _ _)
    simpa [Libstdcxx.insertionSort] using this

theorem sort_eq_insertionSort (xs : List (String × Int)) (h : xs.length ≤ 16) :
    Libstdcxx.sort displayGameSummary.comp xs =
      some (Libstdcxx.insertionSort displayGameSummary.comp xs) := by
  unfold Libstdcxx.sort
  cases xs with
  | nil => simp [Libstdcxx.insertionSort]
  | cons first rest =>
    have hsmall : ∀ d, Libstdcxx.introsortLoop displayGameSummary.comp d (first :: rest) 0
        (first :: rest).length = some (first :: rest) := by
      intro d
      cases d with
      | zero =>
        unfold Libstdcxx.introsortLoop
        rw [if_neg (by omega)]
      | succ d =>
        unfold Libstdcxx.introsortLoop
        rw [if_neg (by omega)]
    rw [hsmall]
    have hfin : Libstdcxx.finalInsertionSort displayGameSummary.comp (first :: rest) =
        Libstdcxx.insertionSort displayGameSummary.comp (first :: rest) := by
      unfold Libstdcxx.finalInsertionSort
      rw [if_neg (by omega)]
    simp [hfin]

/-- C10 as stated fails: `std::sort` is not a stable sort.  On a roster of
seventeen players who all score 0, the routine of libstdc++ partitions the
range before its insertion pass and the ranking starts with the ninth player,
followed by the seventeenth: players with equal final scores do not appear in
roster order. -/
theorem C10_seventeen_tied_players_reordered :
    gutterRoster.players.length = 17 ∧
      (∀ p ∈ gutterRoster.players, readsInRange p.rolls) ∧
      ∀ oob : Nat → Int,
        displayGameSummary.playerRanking oob gutterRoster.players =
            [("P0", 0), ("P1", 0), ("P2", 0), ("P3", 0), ("P4", 0), ("P5", 0), ("P6", 0),
              ("P7", 0), ("P8", 0), ("P9", 0), ("P10", 0), ("P11", 0), ("P12", 0),
              ("P13", 0), ("P14", 0), ("P15", 0), ("P16", 0)] ∧
          displayGameSummary.rankingLibstdcxx oob gutterRoster =
            some [("P8", 0), ("P16", 0), ("P15", 0), ("P14", 0), ("P13", 0), ("P12", 0),
              ("P11", 0), ("P10", 0), ("P9", 0), ("P0", 0), ("P7", 0), ("P6", 0), ("P5", 0),
              ("P4", 0), ("P3", 0), ("P2", 0), ("P1", 0)] := by
  refine ⟨by decide, by decide, fun oob => ?_⟩
  unfold displayGameSummary.rankingLibstdcxx
  rw [playerRanking_congr (fun _ => 0) oob gutterRoster.players (by decide)]
  decide

/-- C10, amended: `displayGameSummary` ranks with `std::sort`, which is not
stable in general; the routine of libstdc++ sorts a range of at most 16 elements
by insertion alone.  So for every roster of at most 16 players, hence for every
roster that the menu can build, the ranking is sorted by decreasing score and
the players with any given final score appear in it in their roster order; for
roster-order scores [120, 150, 150, 90] the ranking is the second player, then
the third, then the first, then the fourth. -/
theorem C10_ties_keep_roster_order_up_to_sixteen (oob : Nat → Int) (g : BowlingGame)
    (h : g.players.length ≤ 16) :
    ∃ ranking,
      displayGameSummary.rankingLibstdcxx oob g = some ranking ∧
      ranking.Perm (displayGameSummary.playerRanking oob g.players) ∧
      ranking.Pairwise (fun a b => a.2 ≥ b.2) ∧
      (∀ s : Int, ranking.filter (fun e => decide (e.2 = s)) =
        (displayGameSummary.playerRanking oob g.players).filter
          (fun e => decide (e.2 = s))) ∧
      ∀ n1 n2 n3 n4 : String,
        displayGameSummary.playerRanking oob g.players =
            [(n1, 120), (n2, 150), (n3, 150), (n4, 90)] →
          ranking = [(n2, 150), (n3, 150), (n1, 120), (n4, 90)] := by
  have hlen : (displayGameSummary.playerRanking oob g.players).length ≤ 16 := by
    rw [playerRanking_length]; exact h
  refine ⟨Libstdcxx.insertionSort displayGameSummary.comp
      (displayGameSummary.playerRanking oob g.players),
    sort_eq_insertionSort _ hlen, (insertionSort_spec 0 _).2.1, (insertionSort_spec 0 _).1,
    fun s => (insertionSort_spec s _).2.2, ?_⟩
  intro n1 n2 n3 n4 hp
  rw [hp]
  simp [Libstdcxx.insertionSort, Libstdcxx.insertionSortLoop, Libstdcxx.insertStep,
    Libstdcxx.unguardedLinearInsert, displayGameSummary.comp]

/-- Witness of the amended C10 on the roster of Ann, Ben, Cat and Dan. -/
theorem C10_ties_keep_roster_order_up_to_sixteen_witness :
    tieRoster.players.length ≤ 16 ∧
      displayGameSummary.playerRanking (fun _ => 0) tieRoster.players =
        [("Ann", 120), ("Ben", 150), ("Cat", 150), ("Dan", 90)] ∧
      displayGameSummary.rankingLibstdcxx (fun _ => 0) tieRoster =
        some [("Ben", 150), ("Cat", 150), ("Ann", 120), ("Dan", 90)] ∧
      ∃ ranking,
        displayGameSummary.rankingLibstdcxx (fun _ => 0) tieRoster = some ranking ∧
        ranking.Perm (displayGameSummary.playerRanking (fun _ => 0) tieRoster.players) ∧
        ranking.Pairwise (fun a b => a.2 ≥ b.2) ∧
        (∀ s : Int, ranking.filter (fun e => decide (e.2 = s)) =
          (displayGameSummary.playerRanking (fun _ => 0) tieRoster.players).filter
            (fun e => decide (e.2 = s))) ∧
        ∀ n1 n2 n3 n4 : String,
          displayGameSummary.playerRanking (fun _ => 0) tieRoster.players =
              [(n1, 120), (n2, 150), (n3, 150), (n4, 90)] →
            ranking = [(n2, 150), (n3, 150), (n1, 120), (n4, 90)] :=
  ⟨by decide, by decide, by decide,
    C10_ties_keep_roster_order_up_to_sixteen (fun _ => 0) tieRoster (by decide)⟩

end Bowling
